import Mathlib

/-!
# Freematics telelogger: `CDataLogger` (firmware_v4/telelogger/datalogger.h)

A shallow embedding of the data logger class and a verification of its record
encoding and cache handling.

Conventions of the embedding

* A C character buffer is a `List Nat` of byte values; `peek` reads and `poke`
  stores one byte.  An access outside the list is undefined in C: here a read
  outside yields 0 and a store outside is dropped, everything else computed as
  written.
* `byte` is reduced modulo 256, `uint32_t` modulo 2^32.  The target is the AVR
  (`PROGMEM`, `sprintf_P`), so `unsigned int` has 16 bits.  The `int` arithmetic of
  `dispatch` is done in `Int`: it is exact as long as `CACHE_SIZE + 267` fits a C
  `int`.
* The pair `(const char* buf, byte len)` handed to `dispatch` and `record` is the
  list of the `len` bytes at `buf`.
* The compile-time switches (`ENABLE_DATA_CACHE`, `CACHE_DISCARD`, ...) and
  `CACHE_SIZE` are the fields of `Config`.
* `genTimestamp` declares `byte n;` without a value and its delta branch does
  `n += sprintf_P(...)`.  The value `n` holds on entry is the argument `n0`.
* The file store takes every byte offered and `println` sends CR LF; what the `SD`
  library answers to `openFile` is the argument `SDCard`.
-/

namespace Freematics

/-! ## Text helpers: what the `printf` conversions write -/

/-- Byte values of a string literal. -/
def bytes (s : String) : List Nat := s.toList.map Char.toNat

/-- Digits of `n` in `base`, most significant first, each mapped through `digit`. -/
def digitsAux (base : Nat) (digit : Nat → Nat) : Nat → Nat → List Nat → List Nat
  | 0, _, acc => acc
  | fuel + 1, n, acc =>
    if n < base then digit n :: acc
    else digitsAux base digit fuel (n / base) (digit (n % base) :: acc)

/-- Character of a decimal digit. -/
def decDigit (d : Nat) : Nat := 48 + d

/-- Character of a hexadecimal digit, upper case. -/
def hexDigit (d : Nat) : Nat := if d < 10 then 48 + d else 55 + d

/-- The text of `%u` / `%lu`: decimal, no leading zeros. -/
def decimal (n : Nat) : List Nat := digitsAux 10 decDigit (n + 1) n []

/-- The text of `%X`: upper-case hexadecimal, no leading zeros. -/
def hexUpper (n : Nat) : List Nat := digitsAux 16 hexDigit (n + 1) n []

/-- The text of `%d` / `%ld`: a minus sign for a negative value, then the decimal magnitude. -/
def decimalInt (v : Int) : List Nat :=
  if v < 0 then 45 :: decimal v.natAbs else decimal v.natAbs

/-- The text of `%06lu`: decimal, padded on the left with zeros to at least six characters. -/
def decimalPad6 (n : Nat) : List Nat :=
  List.replicate (6 - (decimal n).length) 48 ++ decimal n

/-- Value of a signed 32-bit quantity converted to a 16-bit `int`. -/
def toInt16 (v : Int) : Int := (v + 32768) % 65536 - 32768

/-! ## Character buffers -/

/-- Read `m[i]`. -/
def peek (m : List Nat) (i : Int) : Nat :=
  if 0 ≤ i then m.getD i.toNat 0 else 0

/-- Store `m[i] = v`. -/
def poke (m : List Nat) (i : Int) (v : Nat) : List Nat :=
  if 0 ≤ i then m.set i.toNat v else m

/-- Store the bytes `vs` at `m[i]`, `m[i+1]`, ... in this order. -/
def pokes (m : List Nat) (i : Int) : List Nat → List Nat
  | [] => m
  | v :: vs => pokes (poke m i v) (i + 1) vs

/-- The `n` bytes `m[src]`, ..., `m[src+n-1]`. -/
def peeks (m : List Nat) (src : Int) (n : Nat) : List Nat :=
  (List.range n).map (fun (k : Nat) => peek m (src + (k : Int)))

/-- The call `memcpy(m + dst, m + src, n)` with `dst < src`: the source bytes are read
before any of them is overwritten, as a forward byte copy does.  A negative count
(undefined in C) copies nothing. -/
def memcpyDown (m : List Nat) (dst src : Int) (n : Int) : List Nat :=
  pokes m dst (peeks m src n.toNat)

/-! ## Configuration and state -/

/-- Compile-time configuration of the logger. -/
structure Config where
  ENABLE_DATA_CACHE : Bool
  CACHE_DISCARD : Bool
  ENABLE_DATA_OUT : Bool
  ENABLE_DATA_LOG : Bool
  USE_FRIENDLY_PID_NAME : Bool
  CACHE_SIZE : Nat
  deriving DecidableEq

/-- The members of `CDataLogger`, with the bytes sent to `SerialRF` and the bytes
written to `sdfile` so far. -/
structure CDataLogger where
  dataTime : Nat
  dataSize : Nat
  cache : List Nat
  cacheBytes : Int
  m_lastDataTime : Nat
  serialRF : List Nat
  sdfile : List Nat
  deriving DecidableEq

/-- The constructor: it assigns `m_lastDataTime` and, with the cache compiled in,
`cacheBytes`; the other members keep what the storage held (`raw`). -/
def CDataLogger.construct (cfg : Config) (raw : CDataLogger) : CDataLogger :=
  { raw with
    m_lastDataTime := 0
    cacheBytes := if cfg.ENABLE_DATA_CACHE then 0 else raw.cacheBytes }

/-- Storage of a logger object in zero-initialised memory. -/
def zeroStorage (cfg : Config) : CDataLogger :=
  { dataTime := 0, dataSize := 0, cache := List.replicate cfg.CACHE_SIZE 0, cacheBytes := 0,
    m_lastDataTime := 0, serialRF := [], sdfile := [] }

/-- Member `purgeCache`. -/
def purgeCache (s : CDataLogger) : CDataLogger :=
  { s with cacheBytes := 0 }

/-! ## `genTimestamp` -/

/-- Member `genTimestamp(buf, absolute)`, writing into `mem` at offset `buf`.
Returns the memory and the returned byte.  `sprintf_P` writes its text and a
terminating zero; then `buf[n++] = ','`. -/
def genTimestamp (dataTime m_lastDataTime n0 : Nat) (mem : List Nat) (buf : Int)
    (absolute : Bool) : List Nat × Nat :=
  if absolute ∨ dataTime ≥ (m_lastDataTime + 60000) % 2 ^ 32 then
    let txt := 35 :: decimal dataTime
    let n := txt.length % 256
    (poke (pokes mem buf (txt ++ [0])) (buf + n) 44, (n + 1) % 256)
  else
    let txt := decimal (((dataTime + 2 ^ 32 - m_lastDataTime) % 2 ^ 32) % 2 ^ 16)
    let n := (n0 + txt.length) % 256
    (poke (pokes mem buf (txt ++ [0])) (buf + n) 44, (n + 1) % 256)

/-! ## `record` and `dispatch` -/

/-- Member `record(buf, len)`.  `tmp0` is what the local `tmp[12]` holds on entry.
The store takes every byte offered; `println` sends CR LF. -/
def record (cfg : Config) (n0 : Nat) (tmp0 : List Nat) (s : CDataLogger) (buf : List Nat) :
    CDataLogger :=
  let s1 :=
    if cfg.ENABLE_DATA_LOG then
      let r := genTimestamp s.dataTime s.m_lastDataTime n0 tmp0 0 (s.dataSize == 0)
      { s with
        sdfile := s.sdfile ++ peeks r.1 0 r.2 ++ buf ++ [13, 10]
        dataSize := (s.dataSize + r.2 + buf.length + 3) % 2 ^ 32 }
    else s
  { s1 with m_lastDataTime := s.dataTime }

/-- The loop `for (; cache[l] && cache[l] != ' '; l++);` started at `l`.  A read at
or beyond the end of the list yields 0, so `cache.length - l` steps always suffice. -/
def scanFrom (cache : List Nat) : Nat → Nat → Nat
  | 0, l => l
  | fuel + 1, l =>
    if peek cache l ≠ 0 ∧ peek cache l ≠ 32 then scanFrom cache fuel (l + 1) else l

/-- The index at which the eviction scan of `dispatch` stops when started at `l`. -/
def evictScan (cache : List Nat) (l : Nat) : Nat :=
  scanFrom cache (cache.length - l) l

/-- The `CACHE_DISCARD` branch of `dispatch`, entered with `l >= 0`. -/
def discardOldest (s : CDataLogger) (l : Nat) : CDataLogger :=
  let l1 := evictScan s.cache l
  if peek s.cache l1 ≠ 0 then
    let cb : Int := s.cacheBytes - l1
    { s with cacheBytes := cb, cache := memcpyDown s.cache 0 (l1 + 1) cb }
  else
    { s with cacheBytes := 0 }

/-- The value `l` of the fullness check of `dispatch`. -/
def overflowOf (cfg : Config) (s : CDataLogger) (buf : List Nat) : Int :=
  s.cacheBytes + buf.length + 12 - cfg.CACHE_SIZE

/-- The eviction branch of `dispatch`, when the call enters it, stays within defined
behaviour: the scan stops inside the array and `cacheBytes` does not become negative
(so that `memcpy` is not handed a negative count). -/
def evictionDefined (cfg : Config) (s : CDataLogger) (buf : List Nat) : Prop :=
  cfg.CACHE_DISCARD = true → 0 ≤ overflowOf cfg s buf →
    evictScan s.cache (overflowOf cfg s buf).toNat < s.cache.length
      ∧ 0 ≤ (discardOldest s (overflowOf cfg s buf).toNat).cacheBytes

instance (cfg : Config) (s : CDataLogger) (buf : List Nat) :
    Decidable (evictionDefined cfg s buf) := by
  unfold evictionDefined
  infer_instance

/-- Whether `dispatch`, continuing after the fullness check in state `s`, takes the
branch that copies the record into the cache. -/
def appendFits (cfg : Config) (n0 : Nat) (s : CDataLogger) (buf : List Nat) : Bool :=
  let r := genTimestamp s.dataTime s.m_lastDataTime n0 s.cache s.cacheBytes (s.cacheBytes == 0)
  decide (s.cacheBytes + r.2 + buf.length < (cfg.CACHE_SIZE : Int) - 1)

/-- The part of `dispatch` under the comment "add new data at the end". -/
def appendNew (cfg : Config) (n0 : Nat) (s : CDataLogger) (buf : List Nat) : CDataLogger :=
  let r := genTimestamp s.dataTime s.m_lastDataTime n0 s.cache s.cacheBytes (s.cacheBytes == 0)
  let cb1 : Int := s.cacheBytes + r.2
  if cb1 + buf.length < (cfg.CACHE_SIZE : Int) - 1 then
    let c2 := pokes r.1 cb1 buf
    let cb2 : Int := cb1 + buf.length
    let c3 := poke c2 cb2 32
    let cb3 : Int := cb2 + 1
    { s with cache := poke c3 cb3 0, cacheBytes := cb3 }
  else
    { s with cache := poke r.1 cb1 0, cacheBytes := cb1 }

/-- The `ENABLE_DATA_OUT` part of `dispatch`. -/
def streamOut (cfg : Config) (s : CDataLogger) (buf : List Nat) : CDataLogger :=
  if cfg.ENABLE_DATA_OUT then { s with serialRF := s.serialRF ++ buf ++ [13, 10] } else s

/-- Member `dispatch(buf, len)`. -/
def dispatch (cfg : Config) (n0 : Nat) (s : CDataLogger) (buf : List Nat) : CDataLogger :=
  if cfg.ENABLE_DATA_CACHE then
    let l := overflowOf cfg s buf
    if 0 ≤ l then
      if cfg.CACHE_DISCARD then
        streamOut cfg (appendNew cfg n0 (discardOldest s l.toNat) buf) buf
      else
        s
    else
      streamOut cfg (appendNew cfg n0 s buf) buf
  else
    streamOut cfg s buf

/-- Whether `dispatch` copies the record into the cache. -/
def dispatchStores (cfg : Config) (n0 : Nat) (s : CDataLogger) (buf : List Nat) : Bool :=
  if cfg.ENABLE_DATA_CACHE then
    let l := overflowOf cfg s buf
    if 0 ≤ l then
      if cfg.CACHE_DISCARD then appendFits cfg n0 (discardOldest s l.toNat) buf else false
    else
      appendFits cfg n0 s buf
  else
    false

/-- Member `logData(buf, len)`.  `nD` and `nR` are the values the local `n` of
`genTimestamp` holds on entry in the call from `dispatch` and from `record`. -/
def logData (cfg : Config) (nD nR : Nat) (tmp0 : List Nat) (s : CDataLogger) (buf : List Nat) :
    CDataLogger :=
  record cfg nR tmp0 (dispatch cfg nD s buf) buf

/-- One use of the logger by its caller: `dataTime` is assigned, then
`logData(buf, len)` is called. -/
structure Call where
  time : Nat
  text : List Nat
  nD : Nat
  nR : Nat
  tmp0 : List Nat
  deriving DecidableEq

/-- A call with the uninitialised locals of `genTimestamp` and `record` reading zero. -/
def Call.plain (time : Nat) (text : String) : Call :=
  { time := time, text := bytes text, nD := 0, nR := 0, tmp0 := List.replicate 12 0 }

/-- The logger after one `Call`. -/
def step (cfg : Config) (s : CDataLogger) (c : Call) : CDataLogger :=
  logData cfg c.nD c.nR c.tmp0 { s with dataTime := c.time } c.text

/-- The logger after a sequence of calls. -/
def run (cfg : Config) (s : CDataLogger) (cs : List Call) : CDataLogger :=
  cs.foldl (step cfg) s

/-- The occupied part of the cache: its first `cacheBytes` bytes. -/
def content (s : CDataLogger) : List Nat := s.cache.take s.cacheBytes.toNat

/-! ## Identifier names and `logCoordinate` -/

/-- The identifiers named in `pidNames` whose values are defined outside this file. -/
structure PidConsts where
  PID_ACC : Nat
  PID_GYRO : Nat
  PID_COMPASS : Nat
  PID_GPS_LATITUDE : Nat
  PID_GPS_LONGITUDE : Nat
  PID_GPS_ALTITUDE : Nat
  PID_GPS_SPEED : Nat
  PID_GPS_HEADING : Nat
  PID_GPS_SAT_COUNT : Nat
  PID_GPS_TIME : Nat
  PID_GPS_DATE : Nat
  PID_BATTERY_VOLTAGE : Nat
  deriving DecidableEq

/-- The custom identifier defined at the top of the file. -/
def PID_DATA_SIZE : Nat := 0x80

/-- One table entry: `uint8_t pid; char name[3];`. -/
structure PID_NAME where
  pid : Nat
  name : List Nat
  deriving DecidableEq

/-- The table `pidNames`; the `pid` member is a `uint8_t`. -/
def pidNames (c : PidConsts) : List PID_NAME :=
  [ ⟨c.PID_ACC % 256, bytes "ACC"⟩,
    ⟨c.PID_GYRO % 256, bytes "GYR"⟩,
    ⟨c.PID_COMPASS % 256, bytes "MAG"⟩,
    ⟨c.PID_GPS_LATITUDE % 256, bytes "LAT"⟩,
    ⟨c.PID_GPS_LONGITUDE % 256, bytes "LNG"⟩,
    ⟨c.PID_GPS_ALTITUDE % 256, bytes "ALT"⟩,
    ⟨c.PID_GPS_SPEED % 256, bytes "SPD"⟩,
    ⟨c.PID_GPS_HEADING % 256, bytes "CRS"⟩,
    ⟨c.PID_GPS_SAT_COUNT % 256, bytes "SAT"⟩,
    ⟨c.PID_GPS_TIME % 256, bytes "UTC"⟩,
    ⟨c.PID_GPS_DATE % 256, bytes "DTE"⟩,
    ⟨c.PID_BATTERY_VOLTAGE % 256, bytes "BAT"⟩,
    ⟨PID_DATA_SIZE % 256, bytes "DAT"⟩ ]

/-- The `for` loop of `translatePIDName` over the remaining table entries: at the
first entry with `pid == id` it copies the three name bytes, stores the comma and
returns 4. -/
def lookupLoop (pid : Nat) (text : List Nat) : List PID_NAME → Option (List Nat × Nat)
  | [] => none
  | e :: rest =>
    if pid = e.pid then some (poke (pokes text 0 (peeks e.name 0 3)) 3 44, 4)
    else lookupLoop pid text rest

/-- Member `translatePIDName(pid, text)`: the buffer afterwards and the returned byte. -/
def translatePIDName (cfg : Config) (c : PidConsts) (pid : Nat) (text : List Nat) :
    List Nat × Nat :=
  match (if cfg.USE_FRIENDLY_PID_NAME then lookupLoop pid text (pidNames c) else none) with
  | some r => r
  | none =>
    let t := hexUpper pid ++ [44]
    (pokes text 0 (t ++ [0]), t.length % 256)

/-- Modelled from the spec: the macro `abs` used by `logCoordinate` is defined outside
this file; the spec takes the "absolute value" of the coordinate for the fraction. -/
def absValue (v : Int) : Nat := v.natAbs

/-- The text `logCoordinate(pid, value)` builds in its `buf[24]` (holding `buf0` on
entry): the `len` bytes it hands to `dispatch` and `record`. -/
def coordinateText (cfg : Config) (c : PidConsts) (buf0 : List Nat) (pid : Nat) (value : Int) :
    List Nat :=
  let r := translatePIDName cfg c pid buf0
  let txt := decimalInt (toInt16 (Int.tdiv value 1000000)) ++ [46]
    ++ decimalPad6 ((absValue value % 1000000) % 2 ^ 32)
  let b := pokes r.1 r.2 (txt ++ [0])
  peeks b 0 ((r.2 + txt.length) % 256)

/-- Member `logCoordinate(pid, value)`. -/
def logCoordinate (cfg : Config) (c : PidConsts) (nD nR : Nat) (tmp0 buf0 : List Nat)
    (s : CDataLogger) (pid : Nat) (value : Int) : CDataLogger :=
  let t := coordinateText cfg c buf0 pid value
  record cfg nR tmp0 (dispatch cfg nD s t) t

/-! ## The other `logData` overloads -/

/-- The two formatting lines shared by the `logData(pid, value...)` overloads,
`n = translatePIDName(pid, buf)` and `len = sprintf_P(buf + n, fmt, ...) + n`, where `txt`
is the text the conversion yields and `buf0` what the scratch buffer holds on entry.
Returns the buffer, the byte `len`, and the number of bytes of `buf` the stores reach:
`sprintf_P` stores `txt` and then its terminating zero at `buf[n + txt.length]`. -/
def formatValue (cfg : Config) (c : PidConsts) (buf0 : List Nat) (pid : Nat) (txt : List Nat) :
    List Nat × Nat × Nat :=
  let r := translatePIDName cfg c pid buf0
  (pokes r.1 r.2 (txt ++ [0]), (r.2 + txt.length) % 256, r.2 + txt.length + 1)

/-- The number of bytes of `text` the stores of `translatePIDName` reach: the comma at
`text[3]` after a table name, otherwise the hexadecimal text, the comma and the
terminating zero of `sprintf_P`. -/
def nameReach (cfg : Config) (c : PidConsts) (pid : Nat) (text : List Nat) : Nat :=
  match (if cfg.USE_FRIENDLY_PID_NAME then lookupLoop pid text (pidNames c) else none) with
  | some _ => 4
  | none => (hexUpper pid ++ [44]).length + 1

/-- The text of `"%d,%d,%d"`. -/
def tripleText (value1 value2 value3 : Int) : List Nat :=
  decimalInt value1 ++ [44] ++ decimalInt value2 ++ [44] ++ decimalInt value3

/-- The text of the conversion in `logCoordinate`, `"%d.%06lu"`. -/
def coordinateValueText (value : Int) : List Nat :=
  decimalInt (toInt16 (Int.tdiv value 1000000)) ++ [46]
    ++ decimalPad6 ((absValue value % 1000000) % 2 ^ 32)

/-- Member `logData(uint16_t pid)`, with `char buf[8]` holding `buf0` on entry. -/
def logData_pid (cfg : Config) (c : PidConsts) (nD nR : Nat) (tmp0 buf0 : List Nat)
    (s : CDataLogger) (pid : Nat) : CDataLogger :=
  let r := translatePIDName cfg c pid buf0
  let t := peeks r.1 0 r.2
  record cfg nR tmp0 (dispatch cfg nD s t) t

/-- Member `logData(uint16_t pid, int value)`, with `char buf[16]`; `value` is a 16-bit
`int`. -/
def logData_int (cfg : Config) (c : PidConsts) (nD nR : Nat) (tmp0 buf0 : List Nat)
    (s : CDataLogger) (pid : Nat) (value : Int) : CDataLogger :=
  let f := formatValue cfg c buf0 pid (decimalInt value)
  let t := peeks f.1 0 f.2.1
  record cfg nR tmp0 (dispatch cfg nD s t) t

/-- Member `logData(uint16_t pid, int32_t value)`, with `char buf[20]`. -/
def logData_int32 (cfg : Config) (c : PidConsts) (nD nR : Nat) (tmp0 buf0 : List Nat)
    (s : CDataLogger) (pid : Nat) (value : Int) : CDataLogger :=
  let f := formatValue cfg c buf0 pid (decimalInt value)
  let t := peeks f.1 0 f.2.1
  record cfg nR tmp0 (dispatch cfg nD s t) t

/-- Member `logData(uint16_t pid, uint32_t value)`, with `char buf[20]`. -/
def logData_uint32 (cfg : Config) (c : PidConsts) (nD nR : Nat) (tmp0 buf0 : List Nat)
    (s : CDataLogger) (pid : Nat) (value : Nat) : CDataLogger :=
  let f := formatValue cfg c buf0 pid (decimal value)
  let t := peeks f.1 0 f.2.1
  record cfg nR tmp0 (dispatch cfg nD s t) t

/-- Member `logData(uint16_t pid, int value1, int value2, int value3)`, with
`char buf[24]`; the values are 16-bit `int`s. -/
def logData_triple (cfg : Config) (c : PidConsts) (nD nR : Nat) (tmp0 buf0 : List Nat)
    (s : CDataLogger) (pid : Nat) (value1 value2 value3 : Int) : CDataLogger :=
  let f := formatValue cfg c buf0 pid (tripleText value1 value2 value3)
  let t := peeks f.1 0 f.2.1
  record cfg nR tmp0 (dispatch cfg nD s t) t

/-! ## `openFile` -/

/-- What the calls to the `SD` library answer: whether the directory `/FRMATICS` exists,
whether the data file with a given index exists, and whether `SD.open` yields a file. -/
structure SDCard where
  dirExists : Bool
  fileExists : Nat → Bool
  openOk : Bool

/-- The timestamp token of the specification: absolute when forced or when the gap
to the previous record is at least 60000, otherwise the exact delta; a comma follows. -/
def specToken (forceAbsolute : Bool) (last t : Nat) : List Nat :=
  if forceAbsolute ∨ 60000 ≤ t - last then 35 :: decimal t ++ [44]
  else decimal (t - last) ++ [44]

/-- The cache content the specification expects after logging `cs` in order, the
first token forced absolute when `first` holds, `last` being the previous time. -/
def specRecords : Bool → Nat → List Call → List Nat
  | _, _, [] => []
  | first, last, c :: cs =>
    specToken first last c.time ++ c.text ++ [32] ++ specRecords false c.time cs

/-- Whether a byte is one of the characters `0`-`9`, `A`-`F`. -/
def isUpperHex (ch : Nat) : Bool :=
  decide ((48 ≤ ch ∧ ch ≤ 57) ∨ (65 ≤ ch ∧ ch ≤ 70))

/-- The number an upper-case hexadecimal text denotes. -/
def hexValue (t : List Nat) : Nat :=
  t.foldl (fun acc ch => 16 * acc + (if ch ≤ 57 then ch - 48 else ch - 55)) 0

/-- Whether a byte is one of the characters `0`-`9`. -/
def isDecDigit (ch : Nat) : Bool := decide (48 ≤ ch ∧ ch ≤ 57)

/-- The number a decimal text denotes. -/
def decimalValue (t : List Nat) : Nat :=
  t.foldl (fun acc ch => 10 * acc + (ch - 48)) 0

/-- The six characters of a number below 1000000, zero padded. -/
def sixDigits (a : Nat) : List Nat :=
  [48 + a / 100000 % 10, 48 + a / 10000 % 10, 48 + a / 1000 % 10,
   48 + a / 100 % 10, 48 + a / 10 % 10, 48 + a % 10]

/-- Every call of the sequence passes the fullness check of `dispatch` and has its
record copied into the cache: the capacity is never reached. -/
def neverFull (cfg : Config) : CDataLogger → List Call → Bool
  | _, [] => true
  | s, c :: cs =>
    decide (overflowOf cfg { s with dataTime := c.time } c.text < 0)
      && dispatchStores cfg c.nD { s with dataTime := c.time } c.text
      && neverFull cfg (step cfg s c) cs

/-- The times of the calls do not decrease, starting from `last`. -/
def timesAscend : Nat → List Call → Bool
  | _, [] => true
  | last, c :: cs => decide (last ≤ c.time) && timesAscend c.time cs

/-! ## Scenarios -/

/-- Cache of `size` bytes with the discard-oldest policy; no stream, no file. -/
def cfgDiscard (size : Nat) : Config :=
  { ENABLE_DATA_CACHE := true, CACHE_DISCARD := true, ENABLE_DATA_OUT := false,
    ENABLE_DATA_LOG := false, USE_FRIENDLY_PID_NAME := true, CACHE_SIZE := size }

/-- Cache of `size` bytes with the reject-new policy; no stream, no file. -/
def cfgReject (size : Nat) : Config :=
  { ENABLE_DATA_CACHE := true, CACHE_DISCARD := false, ENABLE_DATA_OUT := false,
    ENABLE_DATA_LOG := false, USE_FRIENDLY_PID_NAME := true, CACHE_SIZE := size }

/-- Cache of `size` bytes with the reject-new policy and the live stream; no file. -/
def cfgRejectStream (size : Nat) : Config :=
  { ENABLE_DATA_CACHE := true, CACHE_DISCARD := false, ENABLE_DATA_OUT := true,
    ENABLE_DATA_LOG := false, USE_FRIENDLY_PID_NAME := true, CACHE_SIZE := size }

/-- Cache of `size` bytes with the discard-oldest policy and the file; no stream. -/
def cfgDiscardFile (size : Nat) : Config :=
  { ENABLE_DATA_CACHE := true, CACHE_DISCARD := true, ENABLE_DATA_OUT := false,
    ENABLE_DATA_LOG := true, USE_FRIENDLY_PID_NAME := true, CACHE_SIZE := size }

/-- A card on which `SD.open` fails. -/
def deadCard : SDCard :=
  { dirExists := false, fileExists := fun _ => false, openOk := false }

/-- A freshly constructed logger in zero-initialised storage. -/
def freshLogger (cfg : Config) : CDataLogger :=
  CDataLogger.construct cfg (zeroStorage cfg)

/-- Identifier values used in the examples. -/
def samplePids : PidConsts :=
  { PID_ACC := 0x20, PID_GYRO := 0x21, PID_COMPASS := 0x22, PID_GPS_LATITUDE := 0xA,
    PID_GPS_LONGITUDE := 0xB, PID_GPS_ALTITUDE := 0xC, PID_GPS_SPEED := 0xD,
    PID_GPS_HEADING := 0xE, PID_GPS_SAT_COUNT := 0xF, PID_GPS_TIME := 0x10,
    PID_GPS_DATE := 0x11, PID_BATTERY_VOLTAGE := 0x24 }

/-! # Verification -/

/-! ## Number texts -/

theorem digitsAux_acc (b : Nat) (d : Nat → Nat) :
    ∀ (fuel n : Nat) (acc : List Nat),
      digitsAux b d fuel n acc = digitsAux b d fuel n [] ++ acc := by
  intro fuel
  induction fuel with
  | zero => intro n acc; simp [digitsAux]
  | succ f ih =>
    intro n acc
    simp only [digitsAux]
    split
    · simp
    · rw [ih (n / b) (d (n % b) :: acc), ih (n / b) [d (n % b)]]
      simp

theorem digitsAux_fuel (b : Nat) (d : Nat → Nat) (hb : 2 ≤ b) :
    ∀ (f g n : Nat) (acc : List Nat), n < f → n < g →
      digitsAux b d f n acc = digitsAux b d g n acc := by
  intro f
  induction f with
  | zero => intro g n acc h; omega
  | succ f ih =>
    intro g n acc hf hg
    cases g with
    | zero => omega
    | succ g =>
      simp only [digitsAux]
      split
      · rfl
      · rename_i hn
        have hlt : n / b < n := Nat.div_lt_self (by omega) (by omega)
        exact ih g (n / b) _ (by omega) (by omega)

theorem digitsAux_small (b : Nat) (d : Nat → Nat) (n : Nat) (h : n < b) :
    digitsAux b d (n + 1) n [] = [d n] := by
  simp [digitsAux, h]

theorem digitsAux_step (b : Nat) (d : Nat → Nat) (hb : 2 ≤ b) (n : Nat) (h : b ≤ n) :
    digitsAux b d (n + 1) n [] = digitsAux b d (n / b + 1) (n / b) [] ++ [d (n % b)] := by
  have hlt : n / b < n := Nat.div_lt_self (by omega) (by omega)
  have e : digitsAux b d (n + 1) n []
      = if n < b then d n :: [] else digitsAux b d n (n / b) (d (n % b) :: []) := rfl
  rw [e, if_neg (by omega), digitsAux_acc]
  rw [digitsAux_fuel b d hb n (n / b + 1) (n / b) [] hlt (by omega)]

theorem decimal_small (n : Nat) (h : n < 10) : decimal n = [48 + n] := by
  simp [decimal, digitsAux_small 10 decDigit n h, decDigit]

theorem decimal_step (n : Nat) (h : 10 ≤ n) :
    decimal n = decimal (n / 10) ++ [48 + n % 10] := by
  simp [decimal, digitsAux_step 10 decDigit (by omega) n h, decDigit]

theorem hexUpper_small (n : Nat) (h : n < 16) : hexUpper n = [hexDigit n] := by
  simp [hexUpper, digitsAux_small 16 hexDigit n h]

theorem hexUpper_step (n : Nat) (h : 16 ≤ n) :
    hexUpper n = hexUpper (n / 16) ++ [hexDigit (n % 16)] := by
  simp [hexUpper, digitsAux_step 16 hexDigit (by omega) n h]

theorem decimal_length_pos (n : Nat) : 1 ≤ (decimal n).length := by
  by_cases h : n < 10
  · simp [decimal_small n h]
  · rw [decimal_step n (by omega)]; simp

theorem decimal_length_le : ∀ (k n : Nat), n < 10 ^ (k + 1) → (decimal n).length ≤ k + 1 := by
  intro k
  induction k with
  | zero => intro n h; rw [decimal_small n (by simpa using h)]; simp
  | succ k ih =>
    intro n h
    by_cases hn : n < 10
    · rw [decimal_small n hn]; simp
    · rw [decimal_step n (by omega)]
      have : n / 10 < 10 ^ (k + 1) := by
        rw [Nat.div_lt_iff_lt_mul (by norm_num)]
        calc n < 10 ^ (k + 1 + 1) := h
          _ = 10 ^ (k + 1) * 10 := by ring
      have := ih (n / 10) this
      simp; omega

theorem hexUpper_length_le : ∀ (k n : Nat), n < 16 ^ (k + 1) → (hexUpper n).length ≤ k + 1 := by
  intro k
  induction k with
  | zero => intro n h; rw [hexUpper_small n (by simpa using h)]; simp
  | succ k ih =>
    intro n h
    by_cases hn : n < 16
    · rw [hexUpper_small n hn]; simp
    · rw [hexUpper_step n (by omega)]
      have : n / 16 < 16 ^ (k + 1) := by
        rw [Nat.div_lt_iff_lt_mul (by norm_num)]
        calc n < 16 ^ (k + 1 + 1) := h
          _ = 16 ^ (k + 1) * 16 := by ring
      have := ih (n / 16) this
      simp; omega

/-- Zero-padded digits of fixed width, least significant last. -/
theorem decimalPad6_eq (a : Nat) (h : a < 1000000) : decimalPad6 a = sixDigits a := by
  unfold decimalPad6 sixDigits
  by_cases h1 : a < 10
  · rw [decimal_small a h1]
    simp [List.replicate]
    omega
  · rw [decimal_step a (by omega)]
    by_cases h2 : a / 10 < 10
    · rw [decimal_small _ h2]
      simp [List.replicate]
      omega
    · rw [decimal_step _ (by omega)]
      by_cases h3 : a / 10 / 10 < 10
      · rw [decimal_small _ h3]
        simp [List.replicate]
        omega
      · rw [decimal_step _ (by omega)]
        by_cases h4 : a / 10 / 10 / 10 < 10
        · rw [decimal_small _ h4]
          simp [List.replicate]
          omega
        · rw [decimal_step _ (by omega)]
          by_cases h5 : a / 10 / 10 / 10 / 10 < 10
          · rw [decimal_small _ h5]
            simp [List.replicate]
            omega
          · rw [decimal_step _ (by omega)]
            have h6 : a / 10 / 10 / 10 / 10 / 10 < 10 := by omega
            rw [decimal_small _ h6]
            simp [List.replicate]
            omega

/-! ## The number texts denote their numbers -/

theorem hexValue_snoc (a : List Nat) (ch : Nat) :
    hexValue (a ++ [ch]) = 16 * hexValue a + (if ch ≤ 57 then ch - 48 else ch - 55) := by
  simp [hexValue, List.foldl_append]

theorem decimalValue_snoc (a : List Nat) (ch : Nat) :
    decimalValue (a ++ [ch]) = 10 * decimalValue a + (ch - 48) := by
  simp [decimalValue, List.foldl_append]

theorem hexDigit_spec (d : Nat) (h : d < 16) :
    isUpperHex (hexDigit d) = true
      ∧ (if hexDigit d ≤ 57 then hexDigit d - 48 else hexDigit d - 55) = d
      ∧ (hexDigit d = 48 → d = 0) := by
  unfold isUpperHex hexDigit
  by_cases h10 : d < 10
  · simp only [h10, if_true]
    refine ⟨by simp; omega, ?_, by omega⟩
    rw [if_pos (by omega)]; omega
  · simp only [h10, if_false]
    refine ⟨by simp; omega, ?_, by omega⟩
    rw [if_neg (by omega)]; omega

/-- The text of `%X` is upper-case hexadecimal, denotes the number and has no leading zero. -/
theorem hexUpper_spec (n : Nat) :
    hexValue (hexUpper n) = n ∧ (∀ ch ∈ hexUpper n, isUpperHex ch = true)
      ∧ hexUpper n ≠ [] ∧ (n ≠ 0 → (hexUpper n).head? ≠ some 48) := by
  induction n using Nat.strong_induction_on with
  | _ n ih =>
    by_cases h : n < 16
    · rw [hexUpper_small n h]
      have hd := hexDigit_spec n h
      refine ⟨?_, ?_, by simp, ?_⟩
      · simpa [hexValue] using hd.2.1
      · intro ch hch
        simp at hch
        rw [hch]; exact hd.1
      · intro hn hh
        simp at hh
        exact hn (hd.2.2 hh)
    · have hlt : n / 16 < n := Nat.div_lt_self (by omega) (by omega)
      obtain ⟨i1, i2, i3, i4⟩ := ih (n / 16) hlt
      have hd := hexDigit_spec (n % 16) (Nat.mod_lt _ (by omega))
      rw [hexUpper_step n (by omega)]
      refine ⟨?_, ?_, by simp, ?_⟩
      · rw [hexValue_snoc, i1, hd.2.1]; omega
      · intro ch hch
        rw [List.mem_append] at hch
        rcases hch with hch | hch
        · exact i2 ch hch
        · simp at hch; rw [hch]; exact hd.1
      · intro _
        rw [List.head?_append_of_ne_nil _ i3]
        exact i4 (by omega)

/-- The text of `%u` / `%lu` consists of digits, denotes the number and has no leading zero. -/
theorem decimal_spec (n : Nat) :
    decimalValue (decimal n) = n ∧ (∀ ch ∈ decimal n, isDecDigit ch = true)
      ∧ decimal n ≠ [] ∧ (n ≠ 0 → (decimal n).head? ≠ some 48) := by
  induction n using Nat.strong_induction_on with
  | _ n ih =>
    by_cases h : n < 10
    · rw [decimal_small n h]
      refine ⟨by simp [decimalValue], ?_, by simp, ?_⟩
      · intro ch hch
        simp at hch
        rw [hch]; simp [isDecDigit]; omega
      · intro hn hh
        simp at hh
        exact hn hh
    · have hlt : n / 10 < n := Nat.div_lt_self (by omega) (by omega)
      obtain ⟨i1, i2, i3, i4⟩ := ih (n / 10) hlt
      rw [decimal_step n (by omega)]
      refine ⟨?_, ?_, by simp, ?_⟩
      · rw [decimalValue_snoc, i1]; omega
      · intro ch hch
        rw [List.mem_append] at hch
        rcases hch with hch | hch
        · exact i2 ch hch
        · simp at hch; rw [hch]; simp [isDecDigit]; omega
      · intro _
        rw [List.head?_append_of_ne_nil _ i3]
        exact i4 (by omega)


/-! ## Buffers -/

theorem length_poke (m : List Nat) (i : Int) (v : Nat) : (poke m i v).length = m.length := by
  unfold poke; split <;> simp

theorem length_pokes : ∀ (vs : List Nat) (m : List Nat) (i : Int),
    (pokes m i vs).length = m.length := by
  intro vs
  induction vs with
  | nil => intro m i; rfl
  | cons v vs ih => intro m i; simp [pokes, ih, length_poke]

theorem pokes_append : ∀ (a b : List Nat) (m : List Nat) (i : Int),
    pokes m i (a ++ b) = pokes (pokes m i a) (i + a.length) b := by
  intro a
  induction a with
  | nil => intro b m i; simp [pokes]
  | cons v a ih =>
    intro b m i
    show pokes (poke m i v) (i + 1) (a ++ b)
      = pokes (pokes (poke m i v) (i + 1) a) (i + ((a.length + 1 : Nat) : Int)) b
    rw [ih]
    congr 1
    push_cast
    ring

theorem poke_poke (m : List Nat) (i : Int) (x y : Nat) : poke (poke m i x) i y = poke m i y := by
  unfold poke
  split
  · simp [List.set_set]
  · rfl

/-- Storing `y` over the last byte of a block just written. -/
theorem poke_pokes_last (m : List Nat) (i : Int) (a : List Nat) (x y : Nat) :
    poke (pokes m i (a ++ [x])) (i + a.length) y = pokes m i (a ++ [y]) := by
  rw [pokes_append, pokes_append]
  simp [pokes, poke_poke]

theorem poke_nat (m : List Nat) (k : Nat) (v : Nat) (h : k < m.length) :
    poke m (k : Int) v = m.take k ++ v :: m.drop (k + 1) := by
  unfold poke
  simp [List.set_eq_take_append_cons_drop, h]

/-- A block stored inside the buffer replaces exactly the bytes it covers. -/
theorem pokes_nat : ∀ (vs : List Nat) (m : List Nat) (k : Nat), k + vs.length ≤ m.length →
    pokes m (k : Int) vs = m.take k ++ vs ++ m.drop (k + vs.length) := by
  intro vs
  induction vs with
  | nil => intro m k _; simp [pokes]
  | cons v vs ih =>
    intro m k h
    simp only [List.length_cons] at h
    have hk : k < m.length := by omega
    simp only [pokes]
    have := ih (poke m (k : Int) v) (k + 1) (by rw [length_poke]; omega)
    rw [show ((k : Int) + 1) = ((k + 1 : Nat) : Int) by push_cast; rfl, this, poke_nat m k v hk]
    have h1 : (List.take k m).length = k := by simp; omega
    have e1 : List.take (k + 1) (List.take k m ++ v :: List.drop (k + 1) m)
        = List.take k m ++ [v] := by
      rw [List.take_append_eq_append_take]
      simp [h1]
    have e2 : List.drop (k + 1 + vs.length) (List.take k m ++ v :: List.drop (k + 1) m)
        = List.drop (k + (vs.length + 1)) m := by
      have hh : k + 1 + vs.length = (List.take k m).length + (1 + vs.length) := by omega
      rw [hh, List.drop_append]
      rw [show 1 + vs.length = vs.length + 1 by omega, List.drop_succ_cons, List.drop_drop]
      congr 1
      omega
    rw [e1, e2]
    simp

theorem take_pokes_nat (vs m : List Nat) (k : Nat) (h : k + vs.length ≤ m.length) :
    (pokes m (k : Int) vs).take (k + vs.length) = m.take k ++ vs := by
  rw [pokes_nat vs m k h]
  have h1 : (List.take k m ++ vs).length = k + vs.length := by simp; omega
  rw [← h1, List.take_left]

theorem peek_nat (m : List Nat) (k : Nat) : peek m (k : Int) = m.getD k 0 := by
  simp [peek]

theorem getElem?_peeks (m : List Nat) (src : Int) (n j : Nat) (hj : j < n) :
    (peeks m src n)[j]? = some (peek m (src + j)) := by
  unfold peeks
  rw [List.getElem?_map, List.getElem?_range hj]
  rfl

theorem length_peeks (m : List Nat) (src : Int) (n : Nat) : (peeks m src n).length = n := by
  simp [peeks]

theorem peeks_zero_eq_take (m : List Nat) (n : Nat) (h : n ≤ m.length) :
    peeks m 0 n = m.take n := by
  apply List.ext_getElem?
  intro j
  by_cases hj : j < n
  · have hjm : j < m.length := by omega
    rw [getElem?_peeks m 0 n j hj, List.getElem?_take_of_lt hj]
    simp [peek, hjm]
  · rw [List.getElem?_eq_none (by rw [length_peeks]; omega),
      List.getElem?_eq_none (by rw [List.length_take]; omega)]

/-! ## `genTimestamp` -/

theorem decimal_length_u32 (t : Nat) (ht : t < 2 ^ 32) : (decimal t).length ≤ 10 :=
  decimal_length_le 9 t (by omega)

/-- The absolute branch: `#`, the digits and the comma, whatever `n` held. -/
theorem genTimestamp_absolute (t last n0 : Nat) (mem : List Nat) (buf : Int) (a : Bool)
    (ht : t < 2 ^ 32) (hc : a = true ∨ t ≥ (last + 60000) % 2 ^ 32) :
    genTimestamp t last n0 mem buf a
      = (pokes mem buf (35 :: decimal t ++ [44]), (decimal t).length + 2) := by
  have hl := decimal_length_u32 t ht
  unfold genTimestamp
  rw [if_pos hc]
  have e : (35 :: decimal t).length % 256 = (35 :: decimal t).length := by
    apply Nat.mod_eq_of_lt; simp; omega
  simp only [e]
  rw [poke_pokes_last]
  congr 1
  simp
  omega

/-- The delta branch when `n` held 0 on entry: the digits and the comma. -/
theorem genTimestamp_delta (t last : Nat) (mem : List Nat) (buf : Int)
    (hc : ¬ (t ≥ (last + 60000) % 2 ^ 32)) :
    genTimestamp t last 0 mem buf false
      = (pokes mem buf (decimal (((t + 2 ^ 32 - last) % 2 ^ 32) % 2 ^ 16) ++ [44]),
         (decimal (((t + 2 ^ 32 - last) % 2 ^ 32) % 2 ^ 16)).length + 1) := by
  have hl := decimal_length_le 4 (((t + 2 ^ 32 - last) % 2 ^ 32) % 2 ^ 16)
    (by have := Nat.mod_lt ((t + 2 ^ 32 - last) % 2 ^ 32) (show 0 < 2 ^ 16 by norm_num); omega)
  unfold genTimestamp
  rw [if_neg (by simpa using hc)]
  have e : (0 + (decimal (((t + 2 ^ 32 - last) % 2 ^ 32) % 2 ^ 16)).length) % 256
      = (decimal (((t + 2 ^ 32 - last) % 2 ^ 32) % 2 ^ 16)).length := by
    rw [Nat.zero_add]; apply Nat.mod_eq_of_lt; omega
  simp only [e]
  rw [poke_pokes_last]
  congr 1
  apply Nat.mod_eq_of_lt
  omega

/-- Without wrap-around of `m_lastDataTime + 60000`, with non-decreasing times and
`n` holding 0 on entry, `genTimestamp` stores the token of the specification. -/
theorem genTimestamp_specToken (t last : Nat) (mem : List Nat) (buf : Int) (a : Bool)
    (ht : t < 2 ^ 32) (h : a = true ∨ (last ≤ t ∧ last + 60000 < 2 ^ 32)) :
    genTimestamp t last 0 mem buf a
      = (pokes mem buf (specToken a last t), (specToken a last t).length) := by
  by_cases hc : a = true ∨ t ≥ (last + 60000) % 2 ^ 32
  · rw [genTimestamp_absolute t last 0 mem buf a ht hc]
    have : specToken a last t = 35 :: decimal t ++ [44] := by
      unfold specToken
      rw [if_pos]
      rcases hc with hc | hc
      · exact Or.inl hc
      · rcases h with h | ⟨h1, h2⟩
        · exact Or.inl h
        · right
          rw [Nat.mod_eq_of_lt h2] at hc
          omega
    rw [this]
    simp
  · push_neg at hc
    obtain ⟨ha, hlt⟩ := hc
    have ha' : a = false := by simpa using ha
    subst ha'
    rcases h with h | ⟨h1, h2⟩
    · exact absurd h (by simp)
    rw [Nat.mod_eq_of_lt h2] at hlt
    rw [genTimestamp_delta t last mem buf (by rw [Nat.mod_eq_of_lt h2]; omega)]
    have hd : ((t + 2 ^ 32 - last) % 2 ^ 32) % 2 ^ 16 = t - last := by omega
    have : specToken false last t = decimal (t - last) ++ [44] := by
      unfold specToken
      rw [if_neg]
      simp
      omega
    rw [this, hd]
    simp

/-! ## Appending to the cache -/

/-- When `genTimestamp` stores the token `tok` and the record fits, the append part of
`dispatch` stores token, record, space and terminator in one block. -/
theorem appendNew_block (cfg : Config) (n0 : Nat) (s : CDataLogger) (buf tok : List Nat)
    (hg : genTimestamp s.dataTime s.m_lastDataTime n0 s.cache s.cacheBytes (s.cacheBytes == 0)
      = (pokes s.cache s.cacheBytes tok, tok.length))
    (hfit : s.cacheBytes + tok.length + buf.length < (cfg.CACHE_SIZE : Int) - 1) :
    appendNew cfg n0 s buf
      = { s with
          cache := pokes s.cache s.cacheBytes (tok ++ buf ++ [32, 0])
          cacheBytes := s.cacheBytes + tok.length + buf.length + 1 } := by
  unfold appendNew
  simp only [hg]
  rw [if_pos hfit]
  have e : pokes s.cache s.cacheBytes (tok ++ buf ++ [32, 0])
      = poke (poke (pokes (pokes s.cache s.cacheBytes tok) (s.cacheBytes + tok.length) buf)
          (s.cacheBytes + tok.length + buf.length) 32)
          (s.cacheBytes + tok.length + buf.length + 1) 0 := by
    rw [show tok ++ buf ++ [32, 0] = tok ++ (buf ++ ([32] ++ [0])) by simp]
    rw [pokes_append, pokes_append, pokes_append]
    simp only [pokes, List.length_singleton]
    rfl
  rw [e]

theorem appendFits_iff (cfg : Config) (n0 : Nat) (s : CDataLogger) (buf tok : List Nat)
    (hg : genTimestamp s.dataTime s.m_lastDataTime n0 s.cache s.cacheBytes (s.cacheBytes == 0)
      = (pokes s.cache s.cacheBytes tok, tok.length)) :
    appendFits cfg n0 s buf = true
      ↔ s.cacheBytes + tok.length + buf.length < (cfg.CACHE_SIZE : Int) - 1 := by
  unfold appendFits
  simp only [hg]
  simp

/-- What the cache holds after such an append. -/
theorem content_after_block (s : CDataLogger) (k : Nat) (blk : List Nat)
    (hk : s.cacheBytes = k) (hroom : k + blk.length + 2 ≤ s.cache.length) :
    content { s with
        cache := pokes s.cache s.cacheBytes (blk ++ [32, 0])
        cacheBytes := s.cacheBytes + blk.length + 1 }
      = s.cache.take k ++ blk ++ [32]
    ∧ peek (pokes s.cache s.cacheBytes (blk ++ [32, 0])) (s.cacheBytes + blk.length + 1) = 0 := by
  unfold content
  simp only [hk]
  have hlen : k + (blk ++ [32, 0]).length ≤ s.cache.length := by simp; omega
  rw [pokes_nat _ _ _ hlen]
  have h1 : (List.take k s.cache ++ (blk ++ [32])).length = k + blk.length + 1 := by
    simp; omega
  generalize List.drop (k + (blk ++ [32, 0]).length) s.cache = rest
  have e2 : List.take k s.cache ++ (blk ++ [32, 0]) ++ rest
      = (List.take k s.cache ++ (blk ++ [32])) ++ (0 :: rest) := by simp
  rw [e2]
  constructor
  · have e : ((k : Int) + blk.length + 1).toNat
        = (List.take k s.cache ++ (blk ++ [32])).length := by
      rw [h1]; omega
    rw [e, List.take_left]
    simp
  · have e : ((k : Int) + blk.length + 1)
        = (((List.take k s.cache ++ (blk ++ [32])).length : Nat) : Int) := by
      rw [h1]; push_cast; ring
    rw [e, peek_nat, List.getD_eq_getElem?_getD, List.getElem?_append_right (Nat.le_refl _)]
    simp

/-! ## `dispatch` -/

theorem streamOut_cache (cfg : Config) (s : CDataLogger) (buf : List Nat) :
    (streamOut cfg s buf).cache = s.cache ∧ (streamOut cfg s buf).cacheBytes = s.cacheBytes
      ∧ (streamOut cfg s buf).m_lastDataTime = s.m_lastDataTime
      ∧ (streamOut cfg s buf).dataTime = s.dataTime := by
  unfold streamOut
  split <;> simp

theorem content_streamOut (cfg : Config) (s : CDataLogger) (buf : List Nat) :
    content (streamOut cfg s buf) = content s := by
  unfold content
  rw [(streamOut_cache cfg s buf).1, (streamOut_cache cfg s buf).2.1]

/-- On an empty cache an eviction that stays within defined behaviour changes nothing. -/
theorem discardOldest_empty (s : CDataLogger) (l : Nat) (hempty : s.cacheBytes = 0)
    (hdef : 0 ≤ (discardOldest s l).cacheBytes) : discardOldest s l = s := by
  unfold discardOldest at hdef ⊢
  by_cases hp : peek s.cache (evictScan s.cache l) ≠ 0
  · simp only [hp, if_true, ne_eq, not_false_eq_true] at hdef ⊢
    rw [hempty] at hdef
    have h0 : evictScan s.cache l = 0 := by omega
    rw [h0, hempty]
    cases s
    simp_all [memcpyDown, peeks, pokes]
  · simp only [hp, if_false] at hdef ⊢
    cases s
    simp_all

/-- A call that passes the fullness check continues with the append part. -/
theorem dispatch_of_room (cfg : Config) (n0 : Nat) (s : CDataLogger) (buf : List Nat)
    (hc : cfg.ENABLE_DATA_CACHE = true) (hl : overflowOf cfg s buf < 0) :
    dispatch cfg n0 s buf = streamOut cfg (appendNew cfg n0 s buf) buf
      ∧ dispatchStores cfg n0 s buf = appendFits cfg n0 s buf := by
  unfold dispatch dispatchStores
  simp [hc, not_le.mpr hl]

/-! ## The eviction scan -/

theorem peek_beyond (m : List Nat) (l : Nat) (h : m.length ≤ l) : peek m (l : Int) = 0 := by
  rw [peek_nat, List.getD_eq_getElem?_getD, List.getElem?_eq_none h]
  rfl

/-- The scan never runs out of steps: it stops on a zero byte or a space, at or after
its starting index, having passed only bytes that are neither. -/
theorem scanFrom_stops (cache : List Nat) :
    ∀ (fuel l : Nat), cache.length - l ≤ fuel →
      (peek cache (scanFrom cache fuel l : Nat) = 0 ∨ peek cache (scanFrom cache fuel l : Nat) = 32)
        ∧ l ≤ scanFrom cache fuel l
        ∧ ∀ j, l ≤ j → j < scanFrom cache fuel l →
            peek cache (j : Nat) ≠ 0 ∧ peek cache (j : Nat) ≠ 32 := by
  intro fuel
  induction fuel with
  | zero =>
    intro l h
    simp only [scanFrom]
    exact ⟨Or.inl (peek_beyond cache l (by omega)), Nat.le_refl _, fun j h1 h2 => by omega⟩
  | succ f ih =>
    intro l h
    simp only [scanFrom]
    by_cases hc : peek cache (l : Nat) ≠ 0 ∧ peek cache (l : Nat) ≠ 32
    · rw [if_pos hc]
      obtain ⟨h1, h2, h3⟩ := ih (l + 1) (by omega)
      refine ⟨h1, by omega, ?_⟩
      intro j hj1 hj2
      by_cases hjl : j = l
      · rw [hjl]; exact hc
      · exact h3 j (by omega) hj2
    · rw [if_neg hc]
      refine ⟨?_, Nat.le_refl _, fun j h1 h2 => by omega⟩
      by_cases h0 : peek cache (l : Nat) = 0
      · exact Or.inl h0
      · right
        by_contra h32
        exact hc ⟨h0, h32⟩

theorem evictScan_stops (cache : List Nat) (l : Nat) :
    (peek cache (evictScan cache l : Nat) = 0 ∨ peek cache (evictScan cache l : Nat) = 32)
      ∧ l ≤ evictScan cache l
      ∧ ∀ j, l ≤ j → j < evictScan cache l →
          peek cache (j : Nat) ≠ 0 ∧ peek cache (j : Nat) ≠ 32 :=
  scanFrom_stops cache (cache.length - l) l (Nat.le_refl _)

/-! ## Cache scenarios evaluated on the code -/

/-- C1: with `CACHE_SIZE = 32` and discard-oldest, a fresh logger that logs "A,1" at
1000, "abcdef" at 4000000000 and an empty record at 4100000000 ends with
`cacheBytes = 32 = CACHE_SIZE`, above `CACHE_SIZE - 1`: the terminator store goes to
`cache[32]`. -/
theorem C1_cacheBytes_reaches_cache_size :
    (run (cfgDiscard 32) (freshLogger (cfgDiscard 32))
        [Call.plain 1000 "A,1", Call.plain 4000000000 "abcdef", Call.plain 4100000000 ""]
      ).cacheBytes = 32
    ∧ ¬ ((run (cfgDiscard 32) (freshLogger (cfgDiscard 32))
        [Call.plain 1000 "A,1", Call.plain 4000000000 "abcdef", Call.plain 4100000000 ""]
      ).cacheBytes ≤ ((cfgDiscard 32).CACHE_SIZE : Int) - 1) := by
  decide

/-- C2: with `CACHE_SIZE = 32` and discard-oldest, logging "A,1" at 1000, 70000 and
140000 into a fresh logger leaves a zero byte inside the first `cacheBytes = 24`
bytes (the old terminator, copied down by the eviction); and a single 19-byte record
logged at 4000000000 leaves the token `#4000000000,` in the cache without its record. -/
theorem C2_zero_byte_and_lone_token_in_content :
    content (run (cfgDiscard 32) (freshLogger (cfgDiscard 32))
        [Call.plain 1000 "A,1", Call.plain 70000 "A,1", Call.plain 140000 "A,1"])
      = bytes "#70000,A,1 " ++ [0] ++ bytes "#140000,A,1 "
    ∧ 0 ∈ content (run (cfgDiscard 32) (freshLogger (cfgDiscard 32))
        [Call.plain 1000 "A,1", Call.plain 70000 "A,1", Call.plain 140000 "A,1"])
    ∧ content (run (cfgDiscard 32) (freshLogger (cfgDiscard 32))
        [Call.plain 4000000000 "1234567890123456789"])
      = bytes "#4000000000," := by
  decide

/-- C3: the scenario of the claim (`CACHE_SIZE = 32`, "A,1" at 1000, 1500, 2000)
yields `cacheBytes = 17` and the bytes `500,A,1 `, a zero byte, `500,A,1 `; not the
16 bytes `500,A,1 500,A,1 `. -/
theorem C3_eviction_keeps_old_terminator :
    (run (cfgDiscard 32) (freshLogger (cfgDiscard 32))
        [Call.plain 1000 "A,1", Call.plain 1500 "A,1", Call.plain 2000 "A,1"]).cacheBytes = 17
    ∧ content (run (cfgDiscard 32) (freshLogger (cfgDiscard 32))
        [Call.plain 1000 "A,1", Call.plain 1500 "A,1", Call.plain 2000 "A,1"])
      = bytes "500,A,1 " ++ [0] ++ bytes "500,A,1 "
    ∧ content (run (cfgDiscard 32) (freshLogger (cfgDiscard 32))
        [Call.plain 1000 "A,1", Call.plain 1500 "A,1", Call.plain 2000 "A,1"])
      ≠ bytes "500,A,1 500,A,1 " := by
  decide

/-- C4: with `CACHE_SIZE = 32` and discard-oldest, the cache holding the two complete
records `#1000,A,1 ` and `#70000,A,1 ` is found full by the 8-byte record "12345678"
at time 4000000000 (8 + 12 < 32); after the eviction the record is not copied into
the cache, which ends with the lone token `#4000000000,`. -/
theorem C4_record_dropped_after_eviction :
    content (run (cfgDiscard 32) (freshLogger (cfgDiscard 32))
        [Call.plain 1000 "A,1", Call.plain 70000 "A,1"]) = bytes "#1000,A,1 #70000,A,1 "
    ∧ 0 ≤ overflowOf (cfgDiscard 32)
        { run (cfgDiscard 32) (freshLogger (cfgDiscard 32))
            [Call.plain 1000 "A,1", Call.plain 70000 "A,1"] with dataTime := 4000000000 }
        (bytes "12345678")
    ∧ dispatchStores (cfgDiscard 32) 0
        { run (cfgDiscard 32) (freshLogger (cfgDiscard 32))
            [Call.plain 1000 "A,1", Call.plain 70000 "A,1"] with dataTime := 4000000000 }
        (bytes "12345678") = false
    ∧ content (dispatch (cfgDiscard 32) 0
        { run (cfgDiscard 32) (freshLogger (cfgDiscard 32))
            [Call.plain 1000 "A,1", Call.plain 70000 "A,1"] with dataTime := 4000000000 }
        (bytes "12345678"))
      = bytes "#70000,A,1 " ++ [0] ++ bytes "#4000000000," := by
  decide

/-- C5: with `CACHE_SIZE = 32` and reject-new, a fresh logger dispatching a 19-byte
record at time 4000000000 does not store the record, yet `cacheBytes` goes from 0
to 12 and the cache now starts with the token `#4000000000,`. -/
theorem C5_reject_new_writes_token_without_record :
    dispatchStores (cfgReject 32) 0
        { freshLogger (cfgReject 32) with dataTime := 4000000000 }
        (bytes "1234567890123456789") = false
    ∧ (freshLogger (cfgReject 32)).cacheBytes = 0
    ∧ (dispatch (cfgReject 32) 0
        { freshLogger (cfgReject 32) with dataTime := 4000000000 }
        (bytes "1234567890123456789")).cacheBytes = 12
    ∧ (dispatch (cfgReject 32) 0
        { freshLogger (cfgReject 32) with dataTime := 4000000000 }
        (bytes "1234567890123456789")).cache
      ≠ (freshLogger (cfgReject 32)).cache
    ∧ content (dispatch (cfgReject 32) 0
        { freshLogger (cfgReject 32) with dataTime := 4000000000 }
        (bytes "1234567890123456789"))
      = bytes "#4000000000," := by
  decide

/-! ## Timestamp tokens (C6) and the first record after the cache was emptied (C7) -/

/-- C6, as stated, fails: with `m_lastDataTime = 4294960000`, `dataTime = 4294960001`
(gap 1 < 60000) and `absolute = false`, `genTimestamp` writes the absolute token
`#4294960001,` and returns 12, because `m_lastDataTime + 60000` wraps around 2^32;
the delta token `1,` is not what the buffer holds. -/
theorem C6_wraparound_gives_absolute_token :
    (4294960000 : Nat) ≤ 4294960001 ∧ 4294960001 - 4294960000 < 60000
    ∧ genTimestamp 4294960001 4294960000 0 (List.replicate 12 0) 0 false
        = (bytes "#4294960001,", 12)
    ∧ peeks (genTimestamp 4294960001 4294960000 0 (List.replicate 12 0) 0 false).1 0
        (genTimestamp 4294960001 4294960000 0 (List.replicate 12 0) 0 false).2
      ≠ decimal (4294960001 - 4294960000) ++ [44] := by
  decide

/-- C6, amended: for 32-bit times with `m_lastDataTime <= dataTime`, `absolute = false`
and a buffer with room for 12 bytes at offset `k`: if `m_lastDataTime + 60000` does not
wrap around 2^32, a gap of at least 60000 makes `genTimestamp` write `#`, the decimal
`dataTime` and `,` (whatever `n` held), and a smaller gap, with `n` holding 0 on entry,
makes it write the decimal gap and `,`; if the sum wraps, the token is absolute.  In
each case the bytes replace those at offset `k` and the returned count is their number. -/
theorem C6_token_rule_without_wraparound (dataTime last n0 k : Nat) (mem : List Nat)
    (ht : dataTime < 2 ^ 32) (hle : last ≤ dataTime) (hroom : k + 12 ≤ mem.length) :
    (last + 60000 < 2 ^ 32 → 60000 ≤ dataTime - last →
      genTimestamp dataTime last n0 mem k false
        = (mem.take k ++ (35 :: decimal dataTime ++ [44])
            ++ mem.drop (k + (35 :: decimal dataTime ++ [44]).length),
           (35 :: decimal dataTime ++ [44]).length))
    ∧ (last + 60000 < 2 ^ 32 → dataTime - last < 60000 →
      genTimestamp dataTime last 0 mem k false
        = (mem.take k ++ (decimal (dataTime - last) ++ [44])
            ++ mem.drop (k + (decimal (dataTime - last) ++ [44]).length),
           (decimal (dataTime - last) ++ [44]).length))
    ∧ (2 ^ 32 ≤ last + 60000 →
      genTimestamp dataTime last n0 mem k false
        = (mem.take k ++ (35 :: decimal dataTime ++ [44])
            ++ mem.drop (k + (35 :: decimal dataTime ++ [44]).length),
           (35 :: decimal dataTime ++ [44]).length)) := by
  have hl := decimal_length_u32 dataTime ht
  have habs : dataTime ≥ (last + 60000) % 2 ^ 32 →
      genTimestamp dataTime last n0 mem k false
        = (mem.take k ++ (35 :: decimal dataTime ++ [44])
            ++ mem.drop (k + (35 :: decimal dataTime ++ [44]).length),
           (35 :: decimal dataTime ++ [44]).length) := by
    intro hc
    rw [genTimestamp_absolute dataTime last n0 mem k false ht (Or.inr hc)]
    rw [pokes_nat _ _ _ (by simp; omega)]
    simp
  refine ⟨?_, ?_, ?_⟩
  · intro hw hg
    apply habs
    rw [Nat.mod_eq_of_lt hw]
    omega
  · intro hw hg
    have h := genTimestamp_specToken dataTime last mem k false ht (Or.inr ⟨hle, hw⟩)
    have e : specToken false last dataTime = decimal (dataTime - last) ++ [44] := by
      unfold specToken
      rw [if_neg]
      simp
      omega
    rw [e] at h
    rw [h]
    have hl2 := decimal_length_le 4 (dataTime - last) (by omega)
    rw [pokes_nat _ _ _ (by simp; omega)]
  · intro hw
    apply habs
    omega

/-- C6, amended: an instance, with times 1000 and 1500 at the start of a 12-byte buffer. -/
theorem C6_token_rule_without_wraparound_witness :
    genTimestamp 1500 1000 0 (List.replicate 12 0) (0 : Nat) false
      = ((List.replicate 12 0).take 0 ++ (decimal (1500 - 1000) ++ [44])
          ++ (List.replicate 12 0).drop (0 + (decimal (1500 - 1000) ++ [44]).length),
         (decimal (1500 - 1000) ++ [44]).length) :=
  (C6_token_rule_without_wraparound 1500 1000 0 0 (List.replicate 12 0)
    (by decide) (by decide) (by decide)).2.1 (by decide) (by decide)

/-- The constructor (with the cache compiled in) and `purgeCache` leave the cache empty. -/
theorem cacheBytes_after_construct_and_purge (cfg : Config) (raw s : CDataLogger)
    (hc : cfg.ENABLE_DATA_CACHE = true) :
    (CDataLogger.construct cfg raw).cacheBytes = 0 ∧ (purgeCache s).cacheBytes = 0 := by
  simp [CDataLogger.construct, purgeCache, hc]

/-- Where the eviction branch, if entered, stays within defined behaviour
(`evictionDefined`), an empty cache does get the absolute token: when `cacheBytes` is 0
and `dispatch` stores the record, the cache content is exactly `#`, the decimal
`dataTime`, `,`, the record text and one space, followed by the zero terminator,
whatever `m_lastDataTime` and the uninitialised `n` hold. -/
theorem empty_cache_absolute_token_when_defined (cfg : Config) (n0 : Nat) (s : CDataLogger)
    (buf : List Nat) (hlen : s.cache.length = cfg.CACHE_SIZE) (ht : s.dataTime < 2 ^ 32)
    (hempty : s.cacheBytes = 0) (hdef : evictionDefined cfg s buf)
    (hst : dispatchStores cfg n0 s buf = true) :
    content (dispatch cfg n0 s buf) = 35 :: decimal s.dataTime ++ [44] ++ buf ++ [32]
    ∧ (dispatch cfg n0 s buf).cacheBytes = ((35 :: decimal s.dataTime ++ [44] ++ buf ++ [32]).length : Nat)
    ∧ peek (dispatch cfg n0 s buf).cache (dispatch cfg n0 s buf).cacheBytes = 0 := by
  have hg := genTimestamp_absolute s.dataTime s.m_lastDataTime n0 s.cache s.cacheBytes
    (s.cacheBytes == 0) ht (Or.inl (by simp [hempty]))
  have hg' : genTimestamp s.dataTime s.m_lastDataTime n0 s.cache s.cacheBytes (s.cacheBytes == 0)
      = (pokes s.cache s.cacheBytes (35 :: decimal s.dataTime ++ [44]),
          (35 :: decimal s.dataTime ++ [44]).length) := by
    rw [hg]; simp
  -- the call reaches the append part in the state it was given
  have key : dispatch cfg n0 s buf = streamOut cfg (appendNew cfg n0 s buf) buf
      ∧ appendFits cfg n0 s buf = true := by
    unfold dispatchStores at hst
    unfold dispatch
    by_cases hc : cfg.ENABLE_DATA_CACHE = true
    · simp only [hc, if_true] at hst ⊢
      by_cases hl : 0 ≤ overflowOf cfg s buf
      · simp only [hl, if_true] at hst ⊢
        by_cases hd : cfg.CACHE_DISCARD = true
        · simp only [hd, if_true] at hst ⊢
          have e := discardOldest_empty s (overflowOf cfg s buf).toNat hempty (hdef hd hl).2
          rw [e] at hst ⊢
          exact ⟨rfl, hst⟩
        · simp [hd] at hst
      · simp only [hl, if_false] at hst ⊢
        exact ⟨trivial, hst⟩
    · simp [hc] at hst
  obtain ⟨hd, hf⟩ := key
  have hfit := (appendFits_iff cfg n0 s buf _ hg').mp hf
  have hblock := appendNew_block cfg n0 s buf _ hg' hfit
  rw [hempty] at hfit
  have hroom : 0 + ((35 :: decimal s.dataTime ++ [44]) ++ buf).length + 2 ≤ s.cache.length := by
    rw [hlen]; simp at hfit ⊢; omega
  have hc := content_after_block s 0 ((35 :: decimal s.dataTime ++ [44]) ++ buf)
    (by simpa using hempty) hroom
  have hb2 : appendNew cfg n0 s buf = { s with
        cache := pokes s.cache s.cacheBytes (((35 :: decimal s.dataTime ++ [44]) ++ buf) ++ [32, 0])
        cacheBytes := s.cacheBytes + (((35 :: decimal s.dataTime ++ [44]) ++ buf).length : Nat) + 1 } := by
    rw [hblock]
    congr 1
    simp
    ring
  rw [hd]
  refine ⟨?_, ?_, ?_⟩
  · rw [content_streamOut, hb2, hc.1]
    simp
  · rw [(streamOut_cache _ _ _).2.1, hb2, hempty]
    simp
    ring
  · rw [(streamOut_cache _ _ _).1, (streamOut_cache _ _ _).2.1, hb2]
    exact hc.2

/-- An instance of the above: a logger that logged one record, was purged and
dispatches "B,2" at time 5000 with `CACHE_SIZE = 32`. -/
theorem empty_cache_absolute_token_when_defined_example :
    content (dispatch (cfgDiscard 32) 0
        { purgeCache (run (cfgDiscard 32) (freshLogger (cfgDiscard 32)) [Call.plain 1000 "A,1"])
          with dataTime := 5000 } (bytes "B,2"))
      = 35 :: decimal 5000 ++ [44] ++ bytes "B,2" ++ [32] :=
  (empty_cache_absolute_token_when_defined (cfgDiscard 32) 0
    { purgeCache (run (cfgDiscard 32) (freshLogger (cfgDiscard 32)) [Call.plain 1000 "A,1"])
      with dataTime := 5000 } (bytes "B,2")
    (by decide) (by decide) (by decide) (by decide) (by decide)).1

/-- C7: with `CACHE_SIZE = 32` and discard-oldest, a logger that logged "A,1" at 1000
and was purged (`cacheBytes = 0`, the bytes `#1000,A,1 ` still in `cache`) dispatches a
20-byte record at `dataTime = 1500`.  The cache counts as full (0 + 20 + 12 >= 32), the
eviction scan starts at `cache[0]`, stops at the stale space `cache[9]`, and the eviction
leaves `cacheBytes = -9` (its `memcpy` gets the count -9).  `genTimestamp` is then called
with `absolute = (cacheBytes == 0) = false`; the record is copied, and what the cache
holds is not `#1500,` followed by the record and a space. -/
theorem C7_purged_cache_eviction_goes_negative :
    ({ purgeCache (run (cfgDiscard 32) (freshLogger (cfgDiscard 32)) [Call.plain 1000 "A,1"])
        with dataTime := 1500 } : CDataLogger).cacheBytes = 0
    ∧ (purgeCache (run (cfgDiscard 32) (freshLogger (cfgDiscard 32))
        [Call.plain 1000 "A,1"])).cache.take 11 = bytes "#1000,A,1 " ++ [0]
    ∧ overflowOf (cfgDiscard 32)
        { purgeCache (run (cfgDiscard 32) (freshLogger (cfgDiscard 32)) [Call.plain 1000 "A,1"])
          with dataTime := 1500 } (bytes "12345678901234567890") = 0
    ∧ evictScan (purgeCache (run (cfgDiscard 32) (freshLogger (cfgDiscard 32))
        [Call.plain 1000 "A,1"])).cache 0 = 9
    ∧ (discardOldest
        { purgeCache (run (cfgDiscard 32) (freshLogger (cfgDiscard 32)) [Call.plain 1000 "A,1"])
          with dataTime := 1500 } 0).cacheBytes = -9
    ∧ dispatchStores (cfgDiscard 32) 0
        { purgeCache (run (cfgDiscard 32) (freshLogger (cfgDiscard 32)) [Call.plain 1000 "A,1"])
          with dataTime := 1500 } (bytes "12345678901234567890") = true
    ∧ content (dispatch (cfgDiscard 32) 0
        { purgeCache (run (cfgDiscard 32) (freshLogger (cfgDiscard 32)) [Call.plain 1000 "A,1"])
          with dataTime := 1500 } (bytes "12345678901234567890"))
      ≠ 35 :: decimal 1500 ++ [44] ++ bytes "12345678901234567890" ++ [32] := by
  decide

/-! ## Sequences of `logData` calls (C8) -/

theorem record_cache (cfg : Config) (n0 : Nat) (tmp0 : List Nat) (s : CDataLogger)
    (buf : List Nat) :
    (record cfg n0 tmp0 s buf).cache = s.cache
      ∧ (record cfg n0 tmp0 s buf).cacheBytes = s.cacheBytes
      ∧ (record cfg n0 tmp0 s buf).m_lastDataTime = s.dataTime := by
  unfold record
  split <;> simp

theorem appendNew_dataTime (cfg : Config) (n0 : Nat) (s : CDataLogger) (buf : List Nat) :
    (appendNew cfg n0 s buf).dataTime = s.dataTime := by
  unfold appendNew
  simp only
  split <;> rfl

/-- One call that finds room: the record of the specification is appended. -/
theorem step_appends (cfg : Config) (s : CDataLogger) (c : Call) (k : Nat)
    (hc : cfg.ENABLE_DATA_CACHE = true) (hlen : s.cache.length = cfg.CACHE_SIZE)
    (hk : s.cacheBytes = k) (ht : c.time < 2 ^ 32) (hn : c.nD = 0)
    (hrule : s.cacheBytes = 0 ∨ (s.m_lastDataTime ≤ c.time ∧ s.m_lastDataTime + 60000 < 2 ^ 32))
    (hroom : overflowOf cfg { s with dataTime := c.time } c.text < 0)
    (hst : dispatchStores cfg c.nD { s with dataTime := c.time } c.text = true) :
    content (step cfg s c)
        = content s ++ (specToken (s.cacheBytes == 0) s.m_lastDataTime c.time ++ c.text ++ [32])
      ∧ (step cfg s c).cache.length = cfg.CACHE_SIZE
      ∧ 0 < (step cfg s c).cacheBytes
      ∧ (step cfg s c).m_lastDataTime = c.time := by
  have hd := dispatch_of_room cfg c.nD { s with dataTime := c.time } c.text hc hroom
  rw [hd.2] at hst
  have hg := genTimestamp_specToken c.time s.m_lastDataTime s.cache s.cacheBytes
    (s.cacheBytes == 0) ht (by
      rcases hrule with h | h
      · left; simp [h]
      · right; exact h)
  have hg' : genTimestamp ({ s with dataTime := c.time } : CDataLogger).dataTime
      ({ s with dataTime := c.time } : CDataLogger).m_lastDataTime c.nD
      ({ s with dataTime := c.time } : CDataLogger).cache
      ({ s with dataTime := c.time } : CDataLogger).cacheBytes
      (({ s with dataTime := c.time } : CDataLogger).cacheBytes == 0)
      = (pokes ({ s with dataTime := c.time } : CDataLogger).cache
          ({ s with dataTime := c.time } : CDataLogger).cacheBytes
          (specToken (s.cacheBytes == 0) s.m_lastDataTime c.time),
        (specToken (s.cacheBytes == 0) s.m_lastDataTime c.time).length) := by
    rw [hn]; exact hg
  have hfit := (appendFits_iff cfg c.nD _ c.text _ hg').mp hst
  have hblock := appendNew_block cfg c.nD _ c.text _ hg' hfit
  simp only at hfit hblock
  have hroom2 : k + (specToken (s.cacheBytes == 0) s.m_lastDataTime c.time ++ c.text).length + 2
      ≤ s.cache.length := by
    have hf2 := hfit
    generalize specToken (s.cacheBytes == 0) s.m_lastDataTime c.time = tok at hf2 ⊢
    rw [hlen]; rw [hk] at hf2; simp at hf2 ⊢; omega
  have hcn := content_after_block { s with dataTime := c.time } k
    (specToken (s.cacheBytes == 0) s.m_lastDataTime c.time ++ c.text) hk hroom2
  simp only at hcn
  have hb2 : appendNew cfg c.nD { s with dataTime := c.time } c.text
      = { ({ s with dataTime := c.time } : CDataLogger) with
          cache := pokes s.cache s.cacheBytes
            ((specToken (s.cacheBytes == 0) s.m_lastDataTime c.time ++ c.text) ++ [32, 0])
          cacheBytes := s.cacheBytes
            + ((specToken (s.cacheBytes == 0) s.m_lastDataTime c.time ++ c.text).length : Nat)
            + 1 } := by
    rw [hblock]
    congr 1
    simp
    ring
  have hstep : step cfg s c = record cfg c.nR c.tmp0
      (streamOut cfg (appendNew cfg c.nD { s with dataTime := c.time } c.text) c.text) c.text := by
    unfold step logData
    rw [hd.1]
  have hcont : content (step cfg s c)
      = content (appendNew cfg c.nD { s with dataTime := c.time } c.text) := by
    rw [hstep]
    unfold content
    rw [(record_cache _ _ _ _ _).1, (record_cache _ _ _ _ _).2.1,
      (streamOut_cache _ _ _).1, (streamOut_cache _ _ _).2.1]
  refine ⟨?_, ?_, ?_, ?_⟩
  · rw [hcont, hb2, hcn.1]
    unfold content
    rw [hk]
    simp
  · rw [hstep, (record_cache _ _ _ _ _).1, (streamOut_cache _ _ _).1, hb2]
    simp only
    rw [length_pokes, hlen]
  · rw [hstep, (record_cache _ _ _ _ _).2.1, (streamOut_cache _ _ _).2.1, hb2]
    simp only
    rw [hk]
    omega
  · rw [hstep, (record_cache _ _ _ _ _).2.2, (streamOut_cache _ _ _).2.2.2, appendNew_dataTime]

/-- A run in which every call finds room appends the records of the specification. -/
theorem run_appends (cfg : Config) (hc : cfg.ENABLE_DATA_CACHE = true) :
    ∀ (cs : List Call) (s : CDataLogger), s.cache.length = cfg.CACHE_SIZE → 0 ≤ s.cacheBytes →
      (∀ c ∈ cs, c.time + 60000 < 2 ^ 32) → (∀ c ∈ cs, c.nD = 0) →
      timesAscend (if s.cacheBytes = 0 then 0 else s.m_lastDataTime) cs = true →
      (s.cacheBytes ≠ 0 → s.m_lastDataTime + 60000 < 2 ^ 32) →
      neverFull cfg s cs = true →
      content (run cfg s cs)
        = content s ++ specRecords (s.cacheBytes == 0) s.m_lastDataTime cs := by
  intro cs
  induction cs with
  | nil => intro s _ _ _ _ _ _ _; simp [run, specRecords]
  | cons c cs ih =>
    intro s hlen hnn hT hN hA hW hF
    simp only [neverFull, Bool.and_eq_true, decide_eq_true_eq] at hF
    obtain ⟨⟨hroom, hst⟩, hrest⟩ := hF
    simp only [timesAscend, Bool.and_eq_true, decide_eq_true_eq] at hA
    have htc := hT c (List.mem_cons_self _ _)
    obtain ⟨k, hk⟩ := Int.eq_ofNat_of_zero_le hnn
    have hrule : s.cacheBytes = 0
        ∨ (s.m_lastDataTime ≤ c.time ∧ s.m_lastDataTime + 60000 < 2 ^ 32) := by
      by_cases h0 : s.cacheBytes = 0
      · exact Or.inl h0
      · right
        have := hA.1
        rw [if_neg h0] at this
        exact ⟨this, hW h0⟩
    have hs := step_appends cfg s c k hc hlen hk (by omega) (hN c (List.mem_cons_self _ _))
      hrule hroom hst
    obtain ⟨h1, h2, h3, h4⟩ := hs
    have hne : (step cfg s c).cacheBytes ≠ 0 := by omega
    have := ih (step cfg s c) h2 (by omega)
      (fun d hd => hT d (List.mem_cons_of_mem _ hd))
      (fun d hd => hN d (List.mem_cons_of_mem _ hd))
      (by rw [if_neg hne, h4]; exact hA.2)
      (by intro _; rw [h4]; exact htc)
      hrest
    show content (run cfg (step cfg s c) cs) = _
    rw [this, h1, h4]
    have e : ((step cfg s c).cacheBytes == 0) = false := by simpa using hne
    rw [e]
    simp [specRecords]

/-- C8, as stated, fails: with `CACHE_SIZE = 64`, logging "x" at 4294960000 and at
4294960001 into a fresh logger (room for both) gives `#4294960000,x #4294960001,x `;
the rule "delta for a gap below 60000" asks for `#4294960000,x 1,x `. -/
theorem C8_second_token_absolute_near_wraparound :
    neverFull (cfgDiscard 64) (freshLogger (cfgDiscard 64))
        [Call.plain 4294960000 "x", Call.plain 4294960001 "x"] = true
    ∧ timesAscend 0 [Call.plain 4294960000 "x", Call.plain 4294960001 "x"] = true
    ∧ content (run (cfgDiscard 64) (freshLogger (cfgDiscard 64))
        [Call.plain 4294960000 "x", Call.plain 4294960001 "x"])
      = bytes "#4294960000,x #4294960001,x "
    ∧ specRecords true 0 [Call.plain 4294960000 "x", Call.plain 4294960001 "x"]
      = bytes "#4294960000,x 1,x "
    ∧ content (run (cfgDiscard 64) (freshLogger (cfgDiscard 64))
        [Call.plain 4294960000 "x", Call.plain 4294960001 "x"])
      ≠ specRecords true 0 [Call.plain 4294960000 "x", Call.plain 4294960001 "x"] := by
  decide

/-- C8, amended: for every sequence of `logData` calls with non-decreasing times below
2^32 - 60000 into an empty cache whose capacity is never reached, the uninitialised `n`
of `genTimestamp` holding 0 in the calls from `dispatch`, the cache content is the
concatenation, in call order, of token, text and one space, the first token absolute
and each later one encoded by the absolute/delta rule against the previous call's time. -/
theorem C8_run_below_capacity (cfg : Config) (s : CDataLogger) (cs : List Call)
    (hc : cfg.ENABLE_DATA_CACHE = true) (hlen : s.cache.length = cfg.CACHE_SIZE)
    (hempty : s.cacheBytes = 0) (hT : ∀ c ∈ cs, c.time + 60000 < 2 ^ 32)
    (hN : ∀ c ∈ cs, c.nD = 0) (hA : timesAscend 0 cs = true)
    (hF : neverFull cfg s cs = true) :
    content (run cfg s cs) = specRecords true s.m_lastDataTime cs := by
  have h := run_appends cfg hc cs s hlen (by omega) hT hN (by rw [if_pos hempty]; exact hA)
    (fun h => absurd hempty h) hF
  rw [h]
  simp [content, hempty]

/-- C8, amended: the scenario of the claim, times 1000, 1500, 65000 with `CACHE_SIZE = 64`:
the tokens are `#1000,`, `500,` and `#65000,`. -/
theorem C8_run_below_capacity_witness :
    content (run (cfgDiscard 64) (freshLogger (cfgDiscard 64))
        [Call.plain 1000 "A,1", Call.plain 1500 "B,2", Call.plain 65000 "C,3"])
      = specRecords true (freshLogger (cfgDiscard 64)).m_lastDataTime
          [Call.plain 1000 "A,1", Call.plain 1500 "B,2", Call.plain 65000 "C,3"]
    ∧ specRecords true (freshLogger (cfgDiscard 64)).m_lastDataTime
          [Call.plain 1000 "A,1", Call.plain 1500 "B,2", Call.plain 65000 "C,3"]
      = bytes "#1000,A,1 500,B,2 #65000,C,3 " :=
  ⟨C8_run_below_capacity (cfgDiscard 64) (freshLogger (cfgDiscard 64))
      [Call.plain 1000 "A,1", Call.plain 1500 "B,2", Call.plain 65000 "C,3"]
      (by decide) (by decide) (by decide) (by decide) (by decide) (by decide) (by decide),
    by decide⟩

/-! ## `translatePIDName`: the table scan and the hexadecimal fallback -/

theorem pidNames_length (c : PidConsts) : (pidNames c).length = 13 := rfl

theorem pidNames_name_length (c : PidConsts) : ∀ e ∈ pidNames c, e.name.length = 3 := by
  intro e he
  simp only [pidNames, List.mem_cons, List.mem_singleton, List.not_mem_nil, or_false] at he
  rcases he with h | h | h | h | h | h | h | h | h | h | h | h | h <;> (rw [h]; rfl)

theorem peeks_all (name : List Nat) : peeks name 0 name.length = name := by
  rw [peeks_zero_eq_take name name.length (Nat.le_refl _), List.take_length]

/-- The loop returns at the first entry whose `pid` equals the identifier. -/
theorem lookupLoop_first (pid : Nat) (text : List Nat) :
    ∀ (tbl : List PID_NAME) (i : Nat) (hi : i < tbl.length),
      (tbl.get ⟨i, hi⟩).pid = pid →
      (∀ (j : Nat) (hj : j < tbl.length), j < i → (tbl.get ⟨j, hj⟩).pid ≠ pid) →
      lookupLoop pid text tbl
        = some (poke (pokes text 0 (peeks (tbl.get ⟨i, hi⟩).name 0 3)) 3 44, 4) := by
  intro tbl
  induction tbl with
  | nil => intro i hi; simp at hi
  | cons e rest ih =>
    intro i hi hm hfirst
    cases i with
    | zero =>
      simp only [List.get_eq_getElem, List.getElem_cons_zero] at hm
      simp [lookupLoop, hm]
    | succ i =>
      have h0 := hfirst 0 (by simp) (by omega)
      simp only [List.get_eq_getElem, List.getElem_cons_zero] at h0
      simp only [lookupLoop]
      rw [if_neg (fun h => h0 h.symm)]
      have hi' : i < rest.length := by simpa using hi
      have := ih i hi' (by simpa using hm) (by
        intro j hj hji
        have := hfirst (j + 1) (by simp; omega) (by omega)
        simpa using this)
      rw [this]
      simp

/-- Without a matching entry the loop runs to the end of the table. -/
theorem lookupLoop_none (pid : Nat) (text : List Nat) :
    ∀ (tbl : List PID_NAME), (∀ e ∈ tbl, e.pid ≠ pid) → lookupLoop pid text tbl = none := by
  intro tbl
  induction tbl with
  | nil => intro _; rfl
  | cons e rest ih =>
    intro h
    simp only [lookupLoop]
    rw [if_neg (fun hh => h e (List.mem_cons_self _ _) hh.symm)]
    exact ih (fun x hx => h x (List.mem_cons_of_mem _ hx))

theorem lookupLoop_some (pid : Nat) (text : List Nat) :
    ∀ (tbl : List PID_NAME) (r : List Nat × Nat), lookupLoop pid text tbl = some r →
      r.2 = 4 ∧ r.1.length = text.length := by
  intro tbl
  induction tbl with
  | nil => intro r h; simp [lookupLoop] at h
  | cons e rest ih =>
    intro r h
    simp only [lookupLoop] at h
    split at h
    · simp at h
      rw [← h]
      simp [length_poke, length_pokes]
    · exact ih r h

theorem hexUpper_length_u16 (pid : Nat) (hp : pid < 65536) : (hexUpper pid).length ≤ 4 :=
  hexUpper_length_le 3 pid (by omega)

/-- The hexadecimal branch of `translatePIDName`. -/
theorem translatePIDName_hex (cfg : Config) (c : PidConsts) (pid : Nat) (text : List Nat)
    (hp : pid < 65536)
    (h : cfg.USE_FRIENDLY_PID_NAME = false ∨ ∀ e ∈ pidNames c, e.pid ≠ pid) :
    translatePIDName cfg c pid text
      = (pokes text 0 (hexUpper pid ++ [44, 0]), (hexUpper pid).length + 1) := by
  have hl := hexUpper_length_u16 pid hp
  unfold translatePIDName
  have e : (if cfg.USE_FRIENDLY_PID_NAME = true then lookupLoop pid text (pidNames c) else none)
      = none := by
    rcases h with h | h
    · simp [h]
    · rw [lookupLoop_none pid text _ h]; simp
  rw [e]
  simp only
  congr 1
  · simp
  · simp; omega

/-- The byte `translatePIDName` returns is at most 5 and the buffer keeps its size. -/
theorem translatePIDName_bounds (cfg : Config) (c : PidConsts) (pid : Nat) (text : List Nat)
    (hp : pid < 65536) :
    (translatePIDName cfg c pid text).2 ≤ 5
      ∧ (translatePIDName cfg c pid text).1.length = text.length := by
  have hl := hexUpper_length_u16 pid hp
  unfold translatePIDName
  split
  · rename_i r hr
    split at hr
    · have := lookupLoop_some pid text _ r hr
      omega
    · simp at hr
  · simp only [length_pokes]
    refine ⟨?_, trivial⟩
    have : (hexUpper pid ++ [44]).length % 256 ≤ (hexUpper pid ++ [44]).length := Nat.mod_le _ _
    simp at this ⊢
    omega

/-! ## `logCoordinate` (C9) -/

theorem tdiv_million_bounds (v : Int) (hlo : -2 ^ 31 ≤ v) (hhi : v < 2 ^ 31) :
    -2147 ≤ Int.tdiv v 1000000 ∧ Int.tdiv v 1000000 ≤ 2147 := by
  by_cases h : 0 ≤ v
  · rw [Int.tdiv_eq_ediv h (by norm_num)]
    omega
  · have e : v = -(-v) := by ring
    rw [e, Int.neg_tdiv, Int.tdiv_eq_ediv (by omega) (by norm_num)]
    omega

theorem toInt16_of_small (q : Int) (h1 : -32768 ≤ q) (h2 : q < 32768) : toInt16 q = q := by
  unfold toInt16
  omega

theorem decimalInt_length_le (q : Int) (h1 : -2147 ≤ q) (h2 : q ≤ 2147) :
    (decimalInt q).length ≤ 5 := by
  have hl := decimal_length_le 3 q.natAbs (by omega)
  unfold decimalInt
  split <;> simp <;> omega

theorem sixDigits_length (a : Nat) : (sixDigits a).length = 6 := rfl

/-- C9: for every 16-bit identifier and every signed 32-bit value, the text
`logCoordinate` hands to `dispatch` and `record` is what `translatePIDName` wrote
followed by the decimal of `value / 1000000` truncated toward zero, `.` and
`|value| mod 1000000` as exactly six zero-padded digits; 45123456 gives `45.123456`
and -1500 gives `0.001500` as the value part. -/
theorem C9_coordinate_text (cfg : Config) (c : PidConsts) (buf0 : List Nat) (pid : Nat)
    (value : Int) (hp : pid < 65536) (hlo : -2 ^ 31 ≤ value) (hhi : value < 2 ^ 31)
    (hb : buf0.length = 24) :
    coordinateText cfg c buf0 pid value
      = (translatePIDName cfg c pid buf0).1.take (translatePIDName cfg c pid buf0).2
        ++ (decimalInt (Int.tdiv value 1000000) ++ [46] ++ sixDigits (value.natAbs % 1000000))
    ∧ decimalInt (Int.tdiv 45123456 1000000) ++ [46] ++ sixDigits ((45123456 : Int).natAbs % 1000000)
      = bytes "45.123456"
    ∧ decimalInt (Int.tdiv (-1500) 1000000) ++ [46] ++ sixDigits ((-1500 : Int).natAbs % 1000000)
      = bytes "0.001500" := by
  refine ⟨?_, by decide, by decide⟩
  have hq := tdiv_million_bounds value hlo hhi
  have hr := translatePIDName_bounds cfg c pid buf0 hp
  have ha : value.natAbs % 1000000 < 1000000 := Nat.mod_lt _ (by norm_num)
  unfold coordinateText
  simp only
  rw [toInt16_of_small _ (by omega) (by omega)]
  have e1 : absValue value % 1000000 % 2 ^ 32 = value.natAbs % 1000000 := by
    unfold absValue; omega
  rw [e1, decimalPad6_eq _ ha]
  have hd := decimalInt_length_le _ hq.1 hq.2
  have htl : (decimalInt (Int.tdiv value 1000000) ++ [46]
      ++ sixDigits (value.natAbs % 1000000)).length ≤ 12 := by
    simp only [List.length_append, sixDigits_length, List.length_singleton]
    omega
  generalize decimalInt (Int.tdiv value 1000000) ++ [46] ++ sixDigits (value.natAbs % 1000000)
    = txt at htl ⊢
  generalize translatePIDName cfg c pid buf0 = r at hr ⊢
  obtain ⟨hn, hm⟩ := hr
  have hk : r.2 + (txt ++ [0]).length ≤ r.1.length := by
    rw [hm, hb]; simp; omega
  rw [Nat.mod_eq_of_lt (by omega), pokes_nat _ _ _ hk,
    peeks_zero_eq_take _ _ (by simp; omega)]
  have h1 : (List.take r.2 r.1 ++ txt).length = r.2 + txt.length := by
    simp; omega
  generalize List.drop (r.2 + (txt ++ [0]).length) r.1 = rest
  have e2 : List.take r.2 r.1 ++ (txt ++ [0]) ++ rest
      = (List.take r.2 r.1 ++ txt) ++ (0 :: rest) := by simp
  rw [e2, ← h1, List.take_left]

/-- C9: instances: in a zeroed 24-byte buffer, latitude 45123456 gives `LAT,45.123456`
and longitude -1500 gives `LNG,0.001500`. -/
theorem C9_coordinate_text_witness :
    coordinateText (cfgDiscard 32) samplePids (List.replicate 24 0) 0xA 45123456
      = bytes "LAT,45.123456"
    ∧ coordinateText (cfgDiscard 32) samplePids (List.replicate 24 0) 0xB (-1500)
      = bytes "LNG,0.001500" :=
  ⟨((C9_coordinate_text (cfgDiscard 32) samplePids (List.replicate 24 0) 0xA 45123456
      (by decide) (by decide) (by decide) (by decide)).1).trans (by decide),
   ((C9_coordinate_text (cfgDiscard 32) samplePids (List.replicate 24 0) 0xB (-1500)
      (by decide) (by decide) (by decide) (by decide)).1).trans (by decide)⟩

/-! ## `translatePIDName` (C10) -/

/-- C10, as stated, fails: with `USE_FRIENDLY_PID_NAME` off, the identifier 0x80
(`PID_DATA_SIZE`, found in the table under the name `DAT`) is written as `80,` and 3 is
returned, not `DAT,` and 4. -/
theorem C10_name_table_skipped_when_disabled :
    (pidNames samplePids).find? (fun e => e.pid == PID_DATA_SIZE)
      = some ⟨PID_DATA_SIZE, bytes "DAT"⟩
    ∧ translatePIDName { cfgDiscard 32 with USE_FRIENDLY_PID_NAME := false } samplePids
        PID_DATA_SIZE (List.replicate 8 0)
      = (bytes "80," ++ [0, 0, 0, 0, 0], 3)
    ∧ translatePIDName (cfgDiscard 32) samplePids PID_DATA_SIZE (List.replicate 8 0)
      = (bytes "DAT," ++ [0, 0, 0, 0], 4) := by
  decide

/-- C10, amended: for every 16-bit identifier and a buffer of at least 6 bytes: with
`USE_FRIENDLY_PID_NAME` on, `translatePIDName` writes the 3-character name of the first
`pidNames` entry whose pid equals the identifier, then `,`, and returns 4; with the
switch off, or when no entry matches, it writes the identifier in upper-case
hexadecimal without leading zeros, then `,` (and the terminating zero), and returns
the length of that text. -/
theorem C10_translatePIDName_rule (cfg : Config) (c : PidConsts) (pid : Nat) (text : List Nat)
    (hp : pid < 65536) (hroom : 6 ≤ text.length) :
    (cfg.USE_FRIENDLY_PID_NAME = true →
      ∀ (i : Nat) (hi : i < (pidNames c).length), ((pidNames c).get ⟨i, hi⟩).pid = pid →
        (∀ (j : Nat) (hj : j < (pidNames c).length), j < i →
          ((pidNames c).get ⟨j, hj⟩).pid ≠ pid) →
        ((pidNames c).get ⟨i, hi⟩).name.length = 3
          ∧ translatePIDName cfg c pid text
            = (((pidNames c).get ⟨i, hi⟩).name ++ [44] ++ text.drop 4, 4))
    ∧ ((cfg.USE_FRIENDLY_PID_NAME = false ∨ ∀ e ∈ pidNames c, e.pid ≠ pid) →
      translatePIDName cfg c pid text
        = (hexUpper pid ++ [44] ++ [0] ++ text.drop ((hexUpper pid).length + 2),
           (hexUpper pid ++ [44]).length))
    ∧ hexValue (hexUpper pid) = pid
    ∧ (∀ ch ∈ hexUpper pid, isUpperHex ch = true)
    ∧ (pid ≠ 0 → (hexUpper pid).head? ≠ some 48) := by
  have hl := hexUpper_length_u16 pid hp
  have hs := hexUpper_spec pid
  refine ⟨?_, ?_, hs.1, hs.2.1, hs.2.2.2⟩
  · intro hf i hi hm hfirst
    have hn := pidNames_name_length c _ (List.get_mem (pidNames c) i hi)
    refine ⟨hn, ?_⟩
    unfold translatePIDName
    rw [if_pos hf, lookupLoop_first pid text (pidNames c) i hi hm hfirst]
    simp only
    congr 1
    generalize ((pidNames c).get ⟨i, hi⟩).name = name at hn ⊢
    have e3 := peeks_all name
    rw [hn] at e3
    rw [e3]
    have e4 : poke (pokes text 0 name) 3 44 = pokes text 0 (name ++ [44]) := by
      rw [pokes_append, hn]
      simp [pokes]
    rw [e4]
    have := pokes_nat (name ++ [44]) text 0 (by simp; omega)
    simp only [Nat.cast_zero] at this
    rw [this]
    simp [hn]
  · intro h
    rw [translatePIDName_hex cfg c pid text hp h]
    have := pokes_nat (hexUpper pid ++ [44, 0]) text 0 (by simp; omega)
    simp only [Nat.cast_zero] at this
    rw [this]
    simp

/-- C10, amended: an instance: the identifier 0xA is the fourth entry, `LAT`. -/
theorem C10_translatePIDName_rule_witness :
    translatePIDName (cfgDiscard 32) samplePids 0xA (List.replicate 8 0)
      = (((pidNames samplePids).get ⟨3, by decide⟩).name ++ [44]
          ++ (List.replicate 8 0).drop 4, 4) :=
  ((C10_translatePIDName_rule (cfgDiscard 32) samplePids 0xA (List.replicate 8 0)
    (by decide) (by decide)).1 (by decide) 3 (by decide) (by decide) (by decide)).2

/-! ## Scratch buffers of the formatters (C11) -/

/-- C11: `logData(PID_ACC, -32768, -32768, -32768)` formats the 24 characters
`ACC,-32768,-32768,-32768`; with the terminating zero the stores reach 25 bytes of
`char buf[24]`.  With the name table off and the identifier 0x1234 they reach 26. -/
theorem C11_triple_overruns_scratch_buffer :
    (formatValue (cfgDiscard 32) samplePids (List.replicate 24 0) 0x20
        (tripleText (-32768) (-32768) (-32768))).2 = (24, 25)
    ∧ (translatePIDName (cfgDiscard 32) samplePids 0x20 (List.replicate 24 0)).1.take 4
        ++ tripleText (-32768) (-32768) (-32768) = bytes "ACC,-32768,-32768,-32768"
    ∧ ¬ ((formatValue (cfgDiscard 32) samplePids (List.replicate 24 0) 0x20
        (tripleText (-32768) (-32768) (-32768))).2.2 ≤ 24)
    ∧ (formatValue { cfgDiscard 32 with USE_FRIENDLY_PID_NAME := false } samplePids
        (List.replicate 24 0) 0x1234 (tripleText (-32768) (-32768) (-32768))).2 = (25, 26) := by
  decide

/-! ## The live stream (C12) and the byte counter (C13) -/

/-- C12: with the live stream on, reject-new and `CACHE_SIZE = 32`, a fresh logger
dispatching a 20-byte record (0 + 20 + 12 >= 32: cache full) writes nothing to the
stream; with discard-oldest the same call writes the record and CR LF. -/
theorem C12_reject_new_skips_stream :
    (dispatch (cfgRejectStream 32) 0
        { freshLogger (cfgRejectStream 32) with dataTime := 1000 }
        (bytes "12345678901234567890")).serialRF = []
    ∧ (dispatch { cfgRejectStream 32 with CACHE_DISCARD := true } 0
        { freshLogger (cfgRejectStream 32) with dataTime := 1000 }
        (bytes "12345678901234567890")).serialRF = bytes "12345678901234567890" ++ [13, 10] := by
  decide

/-- C13: with the file enabled, `record("A,1", 3)` at `dataTime = 1000` on a fresh logger
appends the 11 bytes `#1000,A,1` CR LF to the file and raises `dataSize` from 0 to 12. -/
theorem C13_dataSize_counts_one_too_many :
    (record (cfgDiscardFile 32) 0 (List.replicate 12 0)
        { freshLogger (cfgDiscardFile 32) with dataTime := 1000 } (bytes "A,1")).sdfile
      = bytes "#1000,A,1" ++ [13, 10]
    ∧ (record (cfgDiscardFile 32) 0 (List.replicate 12 0)
        { freshLogger (cfgDiscardFile 32) with dataTime := 1000 } (bytes "A,1")).sdfile.length
      = 11
    ∧ (freshLogger (cfgDiscardFile 32)).dataSize = 0
    ∧ (record (cfgDiscardFile 32) 0 (List.replicate 12 0)
        { freshLogger (cfgDiscardFile 32) with dataTime := 1000 } (bytes "A,1")).dataSize
      = 12 := by
  decide

/-! ## Eviction and the fullness test (C14, C15, C16) -/

/-- C14: with `CACHE_SIZE = 32` and discard-oldest, a fresh logger logs "A,1" at 1000
and the 10-byte record "1234567890" at 1500.  The eviction removes the only older
record, but leaves `cacheBytes = 1`, so the new record, the only one left, gets the
delta token `500,` against the evicted record, after a zero byte at `cache[0]`. -/
theorem C14_delta_token_after_evicting_all :
    content (run (cfgDiscard 32) (freshLogger (cfgDiscard 32)) [Call.plain 1000 "A,1"])
      = bytes "#1000,A,1 "
    ∧ content (run (cfgDiscard 32) (freshLogger (cfgDiscard 32))
        [Call.plain 1000 "A,1", Call.plain 1500 "1234567890"])
      = [0] ++ bytes "500,1234567890 "
    ∧ content (run (cfgDiscard 32) (freshLogger (cfgDiscard 32))
        [Call.plain 1000 "A,1", Call.plain 1500 "1234567890"])
      ≠ 35 :: decimal 1500 ++ [44] ++ bytes "1234567890 " := by
  decide

/-- C15, as stated, fails: with `CACHE_SIZE = 32` and reject-new, the cache holding
`#1000,A,1 ` (10 bytes) and `dataTime = 70000`, the 10-byte record "1234567890" has the
projected length 10 + 7 + 10 + 1 = 28 <= 31 with its 7-byte token `#70000,`, yet
`dispatch` finds the cache full (10 + 10 + 12 >= 32) and returns without storing it. -/
theorem C15_fitting_record_rejected :
    ({ run (cfgReject 32) (freshLogger (cfgReject 32)) [Call.plain 1000 "A,1"]
        with dataTime := 70000 } : CDataLogger).cacheBytes = 10
    ∧ (genTimestamp 70000 1000 0
        (run (cfgReject 32) (freshLogger (cfgReject 32)) [Call.plain 1000 "A,1"]).cache 10
        false).2 = 7
    ∧ (10 : Int) + 7 + (bytes "1234567890").length + 1 ≤ ((cfgReject 32).CACHE_SIZE : Int) - 1
    ∧ dispatchStores (cfgReject 32) 0
        { run (cfgReject 32) (freshLogger (cfgReject 32)) [Call.plain 1000 "A,1"]
          with dataTime := 70000 } (bytes "1234567890") = false
    ∧ dispatch (cfgReject 32) 0
        { run (cfgReject 32) (freshLogger (cfgReject 32)) [Call.plain 1000 "A,1"]
          with dataTime := 70000 } (bytes "1234567890")
      = { run (cfgReject 32) (freshLogger (cfgReject 32)) [Call.plain 1000 "A,1"]
          with dataTime := 70000 } := by
  decide

/-- C16: with `CACHE_SIZE = 64`, the cache holding `#1000,A,1 ` (10 bytes, terminated)
and `dataTime = 4000000000`, a 41-byte record passes the fullness check
(10 + 41 + 12 < 64); the 12-byte token `#4000000000,` is written, the record is not:
the cache ends with the lone token. -/
theorem C16_reserve_too_small_for_long_token :
    overflowOf (cfgDiscard 64)
        { run (cfgDiscard 64) (freshLogger (cfgDiscard 64)) [Call.plain 1000 "A,1"]
          with dataTime := 4000000000 } (List.replicate 41 120) = -1
    ∧ dispatchStores (cfgDiscard 64) 0
        { run (cfgDiscard 64) (freshLogger (cfgDiscard 64)) [Call.plain 1000 "A,1"]
          with dataTime := 4000000000 } (List.replicate 41 120) = false
    ∧ content (dispatch (cfgDiscard 64) 0
        { run (cfgDiscard 64) (freshLogger (cfgDiscard 64)) [Call.plain 1000 "A,1"]
          with dataTime := 4000000000 } (List.replicate 41 120))
      = bytes "#1000,A,1 #4000000000," := by
  decide

/-! ## `openFile` and the cache tokens (C17) -/

/-- C19: with `dataTime = 1500`, `m_lastDataTime = 1000`, `absolute = false` and `n`
holding 7 on entry, `genTimestamp` stores `500`, a zero byte and, at `buf[10]`, the
comma, and returns 11; with `n` holding 250 it returns 254, above 12.  With `n`
holding 0 it returns 4, the length of `500,`. -/
theorem C19_delta_count_depends_on_uninitialised_n :
    genTimestamp 1500 1000 7 (List.replicate 12 0) 0 false
      = (bytes "500" ++ [0, 0, 0, 0, 0, 0, 0, 44, 0], 11)
    ∧ (genTimestamp 1500 1000 250 (List.replicate 12 0) 0 false).2 = 254
    ∧ ¬ ((genTimestamp 1500 1000 250 (List.replicate 12 0) 0 false).2 ≤ 12)
    ∧ genTimestamp 1500 1000 0 (List.replicate 12 0) 0 false
      = (bytes "500," ++ [0, 0, 0, 0, 0, 0, 0, 0], 4) := by
  decide

/-! ## What stores at or above an offset leave untouched -/

theorem take_poke (m : List Nat) (k : Nat) (i : Int) (v : Nat) (h : (k : Int) ≤ i) :
    (poke m i v).take k = m.take k := by
  unfold poke
  split
  · apply List.ext_getElem?
    intro j
    by_cases hj : j < k
    · rw [List.getElem?_take_of_lt hj, List.getElem?_take_of_lt hj,
        List.getElem?_set_ne (by omega)]
    · rw [List.getElem?_eq_none (by rw [List.length_take, List.length_set]; omega),
        List.getElem?_eq_none (by rw [List.length_take]; omega)]
  · rfl

theorem take_pokes : ∀ (vs : List Nat) (m : List Nat) (k : Nat) (i : Int), (k : Int) ≤ i →
    (pokes m i vs).take k = m.take k := by
  intro vs
  induction vs with
  | nil => intro m k i _; rfl
  | cons v vs ih =>
    intro m k i h
    simp only [pokes]
    rw [ih (poke m i v) k (i + 1) (by omega), take_poke m k i v h]

theorem peeks_eq_take_drop (m : List Nat) (k n : Nat) (h : k + n ≤ m.length) :
    peeks m (k : Int) n = (m.drop k).take n := by
  apply List.ext_getElem?
  intro j
  by_cases hj : j < n
  · rw [getElem?_peeks m k n j hj, List.getElem?_take_of_lt hj, List.getElem?_drop]
    have hjm : k + j < m.length := by omega
    rw [show ((k : Int) + (j : Int)) = ((k + j : Nat) : Int) by push_cast; rfl, peek_nat]
    simp [hjm]
  · rw [List.getElem?_eq_none (by rw [length_peeks]; omega),
      List.getElem?_eq_none (by rw [List.length_take]; omega)]

/-- `genTimestamp` keeps the size of the buffer and the bytes below its offset. -/
theorem genTimestamp_frame (t last n0 : Nat) (mem : List Nat) (k : Nat) (a : Bool) :
    (genTimestamp t last n0 mem (k : Int) a).1.length = mem.length
      ∧ (genTimestamp t last n0 mem (k : Int) a).1.take k = mem.take k := by
  unfold genTimestamp
  split
  · exact ⟨by simp only [length_poke, length_pokes],
      by rw [take_poke _ _ _ _ (by omega), take_pokes _ _ _ _ (Int.le_refl _)]⟩
  · exact ⟨by simp only [length_poke, length_pokes],
      by rw [take_poke _ _ _ _ (by omega), take_pokes _ _ _ _ (Int.le_refl _)]⟩

/-- The append part of `dispatch` when the record fits behind the token: the old
content, the bytes `genTimestamp` left as the token, the record, one space; then the
terminator.  Whatever `n` held on entry. -/
theorem appendNew_stores (cfg : Config) (n0 : Nat) (s : CDataLogger) (buf : List Nat) (k : Nat)
    (hlen : s.cache.length = cfg.CACHE_SIZE) (hk : s.cacheBytes = k)
    (hfit : s.cacheBytes
        + (genTimestamp s.dataTime s.m_lastDataTime n0 s.cache s.cacheBytes
            (s.cacheBytes == 0)).2
        + buf.length < (cfg.CACHE_SIZE : Int) - 1) :
    content (appendNew cfg n0 s buf)
        = content s
          ++ peeks (genTimestamp s.dataTime s.m_lastDataTime n0 s.cache s.cacheBytes
              (s.cacheBytes == 0)).1 s.cacheBytes
              (genTimestamp s.dataTime s.m_lastDataTime n0 s.cache s.cacheBytes
                (s.cacheBytes == 0)).2
          ++ buf ++ [32]
      ∧ (appendNew cfg n0 s buf).cacheBytes
        = s.cacheBytes
          + (genTimestamp s.dataTime s.m_lastDataTime n0 s.cache s.cacheBytes
              (s.cacheBytes == 0)).2
          + buf.length + 1
      ∧ peek (appendNew cfg n0 s buf).cache (appendNew cfg n0 s buf).cacheBytes = 0 := by
  have hfr := genTimestamp_frame s.dataTime s.m_lastDataTime n0 s.cache k (s.cacheBytes == 0)
  rw [← hk] at hfr
  unfold appendNew
  simp only
  rw [if_pos hfit]
  generalize genTimestamp s.dataTime s.m_lastDataTime n0 s.cache s.cacheBytes
    (s.cacheBytes == 0) = r at hfit hfr ⊢
  obtain ⟨hr1, hr2⟩ := hfr
  have e : poke (poke (pokes r.1 (s.cacheBytes + r.2) buf) (s.cacheBytes + r.2 + buf.length) 32)
      (s.cacheBytes + r.2 + buf.length + 1) 0
      = pokes r.1 (s.cacheBytes + r.2) (buf ++ [32, 0]) := by
    rw [show buf ++ [32, 0] = buf ++ ([32] ++ [0]) by simp, pokes_append, pokes_append]
    simp only [pokes, List.length_singleton]
    rfl
  rw [e]
  have hroom : (k + r.2) + buf.length + 2 ≤ r.1.length := by
    rw [hr1, hlen]; rw [hk] at hfit; omega
  have hc := content_after_block
    { s with cache := r.1, cacheBytes := ((k + r.2 : Nat) : Int) } (k + r.2) buf rfl hroom
  simp only at hc
  have hcb : s.cacheBytes + (r.2 : Int) = ((k + r.2 : Nat) : Int) := by
    rw [hk]; push_cast; rfl
  rw [hcb]
  refine ⟨?_, by simp only, ?_⟩
  · have h1 := hc.1
    unfold content at h1 ⊢
    simp only at h1 ⊢
    rw [h1, List.take_add, hr2, hk, peeks_eq_take_drop r.1 k r.2 (by omega)]
    simp
  · exact hc.2

/-- C15, amended: `dispatch` treats the cache as full exactly when
`cacheBytes + len + 12 >= CACHE_SIZE`, the fixed 12 standing for token, space and
terminator whatever the token's length: then it returns with the logger unchanged under
reject-new and runs the eviction before appending under discard-oldest; otherwise it
appends to the cache as it is, and a record whose projected length
`cacheBytes + len(token) + len + 1` is at most `CACHE_SIZE - 1` is stored behind the old
content, followed by the terminator. -/
theorem C15_fullness_test_with_fixed_reserve (cfg : Config) (n0 : Nat) (s : CDataLogger)
    (buf : List Nat) (k : Nat) (hc : cfg.ENABLE_DATA_CACHE = true)
    (hlen : s.cache.length = cfg.CACHE_SIZE) (hk : s.cacheBytes = k) :
    ((cfg.CACHE_SIZE : Int) ≤ s.cacheBytes + buf.length + 12 → cfg.CACHE_DISCARD = false →
      dispatch cfg n0 s buf = s ∧ dispatchStores cfg n0 s buf = false)
    ∧ ((cfg.CACHE_SIZE : Int) ≤ s.cacheBytes + buf.length + 12 → cfg.CACHE_DISCARD = true →
      dispatch cfg n0 s buf
        = streamOut cfg (appendNew cfg n0
            (discardOldest s (s.cacheBytes + buf.length + 12 - (cfg.CACHE_SIZE : Int)).toNat)
            buf) buf)
    ∧ (s.cacheBytes + buf.length + 12 < (cfg.CACHE_SIZE : Int) →
      dispatch cfg n0 s buf = streamOut cfg (appendNew cfg n0 s buf) buf
      ∧ (s.cacheBytes
            + (genTimestamp s.dataTime s.m_lastDataTime n0 s.cache s.cacheBytes
                (s.cacheBytes == 0)).2
            + buf.length + 1 ≤ (cfg.CACHE_SIZE : Int) - 1 →
          dispatchStores cfg n0 s buf = true
          ∧ content (dispatch cfg n0 s buf)
            = content s
              ++ peeks (genTimestamp s.dataTime s.m_lastDataTime n0 s.cache s.cacheBytes
                  (s.cacheBytes == 0)).1 s.cacheBytes
                  (genTimestamp s.dataTime s.m_lastDataTime n0 s.cache s.cacheBytes
                    (s.cacheBytes == 0)).2
              ++ buf ++ [32]
          ∧ peek (dispatch cfg n0 s buf).cache (dispatch cfg n0 s buf).cacheBytes = 0)) := by
  refine ⟨?_, ?_, ?_⟩
  · intro hfull hd
    have hl : 0 ≤ overflowOf cfg s buf := by unfold overflowOf; omega
    unfold dispatch dispatchStores
    simp [hc, hl, hd]
  · intro hfull hd
    have hl : 0 ≤ overflowOf cfg s buf := by unfold overflowOf; omega
    unfold dispatch
    simp only [hc, hl, hd, if_true]
    rfl
  · intro hroom
    have hl : overflowOf cfg s buf < 0 := by unfold overflowOf; omega
    have hd := dispatch_of_room cfg n0 s buf hc hl
    refine ⟨hd.1, ?_⟩
    intro hproj
    have hfit : s.cacheBytes
        + (genTimestamp s.dataTime s.m_lastDataTime n0 s.cache s.cacheBytes
            (s.cacheBytes == 0)).2
        + buf.length < (cfg.CACHE_SIZE : Int) - 1 := by omega
    have ha := appendNew_stores cfg n0 s buf k hlen hk hfit
    refine ⟨?_, ?_, ?_⟩
    · rw [hd.2]
      unfold appendFits
      simpa using hfit
    · rw [hd.1, content_streamOut]
      exact ha.1
    · rw [hd.1, (streamOut_cache _ _ _).1, (streamOut_cache _ _ _).2.1]
      exact ha.2.2

/-- C15, amended: an instance: the 3-byte record "B,2" at time 1500 into the cache
holding `#1000,A,1 `, with `CACHE_SIZE = 32`. -/
theorem C15_fullness_test_with_fixed_reserve_witness :
    content (dispatch (cfgReject 32) 0
        { run (cfgReject 32) (freshLogger (cfgReject 32)) [Call.plain 1000 "A,1"]
          with dataTime := 1500 } (bytes "B,2"))
      = bytes "#1000,A,1 500,B,2 " :=
  ((((C15_fullness_test_with_fixed_reserve (cfgReject 32) 0
      { run (cfgReject 32) (freshLogger (cfgReject 32)) [Call.plain 1000 "A,1"]
        with dataTime := 1500 } (bytes "B,2") 10 (by decide) (by decide) (by decide)).2.2
    (by decide)).2 (by decide)).2.1).trans (by decide)

/-! ## The eviction scan stays inside the content (C18) -/

/-- C18: for a cache with `0 <= cacheBytes < CACHE_SIZE` and `cache[cacheBytes] = 0` and a
record with `len + 12 <= CACHE_SIZE`, the eviction scan of `dispatch`, started at
`l = cacheBytes + len + 12 - CACHE_SIZE`, stops on the first zero byte or space at or
after `l`, at an index not above `cacheBytes` (so every byte it reads lies in
`cache[0..cacheBytes]`), and the eviction leaves `cacheBytes` non-negative. -/
theorem C18_eviction_scan_within_content (cfg : Config) (s : CDataLogger) (buf : List Nat)
    (hlen : s.cache.length = cfg.CACHE_SIZE) (h0 : 0 ≤ s.cacheBytes)
    (h1 : s.cacheBytes < cfg.CACHE_SIZE) (hterm : peek s.cache s.cacheBytes = 0)
    (hrec : buf.length + 12 ≤ cfg.CACHE_SIZE) :
    (overflowOf cfg s buf).toNat ≤ evictScan s.cache (overflowOf cfg s buf).toNat
    ∧ (evictScan s.cache (overflowOf cfg s buf).toNat : Int) ≤ s.cacheBytes
    ∧ evictScan s.cache (overflowOf cfg s buf).toNat < s.cache.length
    ∧ (peek s.cache (evictScan s.cache (overflowOf cfg s buf).toNat : Nat) = 0
        ∨ peek s.cache (evictScan s.cache (overflowOf cfg s buf).toNat : Nat) = 32)
    ∧ (∀ j : Nat, (overflowOf cfg s buf).toNat ≤ j →
        j < evictScan s.cache (overflowOf cfg s buf).toNat →
        peek s.cache (j : Nat) ≠ 0 ∧ peek s.cache (j : Nat) ≠ 32)
    ∧ 0 ≤ (discardOldest s (overflowOf cfg s buf).toNat).cacheBytes := by
  obtain ⟨k, hk⟩ := Int.eq_ofNat_of_zero_le h0
  have hl : (overflowOf cfg s buf).toNat ≤ k := by
    unfold overflowOf
    omega
  obtain ⟨e1, e2, e3⟩ := evictScan_stops s.cache (overflowOf cfg s buf).toNat
  have hle : evictScan s.cache (overflowOf cfg s buf).toNat ≤ k := by
    by_contra hgt
    have := (e3 k hl (by omega)).1
    rw [hk] at hterm
    exact this hterm
  refine ⟨e2, by omega, by omega, e1, e3, ?_⟩
  unfold discardOldest
  simp only
  split
  · simp only
    omega
  · simp

/-- C18: an instance: the full cache of the three-record scenario, `CACHE_SIZE = 32`,
holding `#1000,A,1 500,A,1 ` when "A,1" arrives: the scan starts at 1 and stops at 9. -/
theorem C18_eviction_scan_within_content_witness :
    (overflowOf (cfgDiscard 32)
        (run (cfgDiscard 32) (freshLogger (cfgDiscard 32))
          [Call.plain 1000 "A,1", Call.plain 1500 "A,1"]) (bytes "A,1")).toNat = 1
    ∧ evictScan (run (cfgDiscard 32) (freshLogger (cfgDiscard 32))
          [Call.plain 1000 "A,1", Call.plain 1500 "A,1"]).cache 1 = 9
    ∧ (evictScan (run (cfgDiscard 32) (freshLogger (cfgDiscard 32))
          [Call.plain 1000 "A,1", Call.plain 1500 "A,1"]).cache
        (overflowOf (cfgDiscard 32)
          (run (cfgDiscard 32) (freshLogger (cfgDiscard 32))
            [Call.plain 1000 "A,1", Call.plain 1500 "A,1"]) (bytes "A,1")).toNat : Int)
      ≤ (run (cfgDiscard 32) (freshLogger (cfgDiscard 32))
          [Call.plain 1000 "A,1", Call.plain 1500 "A,1"]).cacheBytes :=
  ⟨by decide, by decide,
    (C18_eviction_scan_within_content (cfgDiscard 32)
      (run (cfgDiscard 32) (freshLogger (cfgDiscard 32))
        [Call.plain 1000 "A,1", Call.plain 1500 "A,1"]) (bytes "A,1")
      (by decide) (by decide) (by decide) (by decide) (by decide)).2.1⟩

/-! ## `openFile` shares `m_lastDataTime` with the cache path (C17) -/

theorem decimalInt_length_le_of (v : Int) (k : Nat) (h : v.natAbs < 10 ^ (k + 1)) :
    (decimalInt v).length ≤ k + 2 := by
  have hl := decimal_length_le k v.natAbs h
  unfold decimalInt
  split <;> simp <;> omega

theorem nameReach_le (cfg : Config) (c : PidConsts) (pid : Nat) (text : List Nat)
    (hp : pid < 65536) : nameReach cfg c pid text ≤ 6 := by
  have hl := hexUpper_length_u16 pid hp
  unfold nameReach
  split
  · omega
  · simp; omega

/-- The text `logCoordinate` hands on is the one its two formatting lines produce. -/
theorem coordinateText_eq_formatValue (cfg : Config) (c : PidConsts) (buf0 : List Nat)
    (pid : Nat) (value : Int) :
    coordinateText cfg c buf0 pid value
      = peeks (formatValue cfg c buf0 pid (coordinateValueText value)).1 0
          (formatValue cfg c buf0 pid (coordinateValueText value)).2.1 := rfl

/-- For a 16-bit identifier the stores of the formatters reach at most 6 bytes (no
value), 12 (16-bit `int`), 17 (`int32_t`), 16 (`uint32_t`) and 18 (coordinate), within
the buffers of 8, 16, 20, 20 and 24 bytes; for a triple of 16-bit `int`s they reach at
most 26 bytes, beyond `char buf[24]`. -/
theorem formatter_reach_bounds (cfg : Config) (c : PidConsts) (buf0 : List Nat) (pid : Nat)
    (hp : pid < 65536) :
    nameReach cfg c pid buf0 ≤ 6
    ∧ (∀ v : Int, -32768 ≤ v → v ≤ 32767 →
        (formatValue cfg c buf0 pid (decimalInt v)).2.2 ≤ 12)
    ∧ (∀ v : Int, -2 ^ 31 ≤ v → v < 2 ^ 31 →
        (formatValue cfg c buf0 pid (decimalInt v)).2.2 ≤ 17)
    ∧ (∀ v : Nat, v < 2 ^ 32 → (formatValue cfg c buf0 pid (decimal v)).2.2 ≤ 16)
    ∧ (∀ v : Int, -2 ^ 31 ≤ v → v < 2 ^ 31 →
        (formatValue cfg c buf0 pid (coordinateValueText v)).2.2 ≤ 18)
    ∧ (∀ v1 v2 v3 : Int, -32768 ≤ v1 → v1 ≤ 32767 → -32768 ≤ v2 → v2 ≤ 32767 →
        -32768 ≤ v3 → v3 ≤ 32767 →
        (formatValue cfg c buf0 pid (tripleText v1 v2 v3)).2.2 ≤ 26) := by
  have hr := (translatePIDName_bounds cfg c pid buf0 hp).1
  refine ⟨nameReach_le cfg c pid buf0 hp, ?_, ?_, ?_, ?_, ?_⟩
  · intro v h1 h2
    have := decimalInt_length_le_of v 4 (by omega)
    simp only [formatValue]
    omega
  · intro v h1 h2
    have := decimalInt_length_le_of v 9 (by omega)
    simp only [formatValue]
    omega
  · intro v h
    have := decimal_length_u32 v h
    simp only [formatValue]
    omega
  · intro v h1 h2
    have hq := tdiv_million_bounds v h1 h2
    have hd := decimalInt_length_le _ hq.1 hq.2
    have ha : v.natAbs % 1000000 < 1000000 := Nat.mod_lt _ (by norm_num)
    have e1 : absValue v % 1000000 % 2 ^ 32 = v.natAbs % 1000000 := by
      unfold absValue; omega
    simp only [formatValue, coordinateValueText]
    rw [toInt16_of_small _ (by omega) (by omega), e1, decimalPad6_eq _ ha]
    simp only [List.length_append, sixDigits_length, List.length_singleton]
    omega
  · intro v1 v2 v3 a1 a2 b1 b2 c1 c2
    have h1 := decimalInt_length_le_of v1 4 (by omega)
    have h2 := decimalInt_length_le_of v2 4 (by omega)
    have h3 := decimalInt_length_le_of v3 4 (by omega)
    simp only [formatValue, tripleText, List.length_append, List.length_singleton]
    omega

/-- With the file enabled `record` appends the bytes `genTimestamp` reports, the record
and CR LF, and adds three more than token and record to `dataSize`. -/
theorem record_counts (cfg : Config) (n0 : Nat) (tmp0 : List Nat) (s : CDataLogger)
    (buf : List Nat) (hf : cfg.ENABLE_DATA_LOG = true) :
    (record cfg n0 tmp0 s buf).sdfile.length
        = s.sdfile.length
          + (genTimestamp s.dataTime s.m_lastDataTime n0 tmp0 0 (s.dataSize == 0)).2
          + buf.length + 2
      ∧ (record cfg n0 tmp0 s buf).dataSize
        = (s.dataSize
          + (genTimestamp s.dataTime s.m_lastDataTime n0 tmp0 0 (s.dataSize == 0)).2
          + buf.length + 3) % 2 ^ 32 := by
  unfold record
  simp [hf, length_peeks]
  omega

/-- In the delta branch the returned byte is built on the value `n` held on entry. -/
theorem genTimestamp_delta_count (t last n0 : Nat) (mem : List Nat) (buf : Int)
    (hc : ¬ (t ≥ (last + 60000) % 2 ^ 32)) :
    (genTimestamp t last n0 mem buf false).2
      = ((n0 + (decimal (((t + 2 ^ 32 - last) % 2 ^ 32) % 2 ^ 16)).length) % 256 + 1) % 256 := by
  unfold genTimestamp
  rw [if_neg (by simpa using hc)]

end Freematics
